import Mathlib

/-!
Verification of the gov_event_notice_monitor repository against its
natural-language specification.

Shallow embedding conventions:
* Python strings are embedded as `List Char` (`Str`); Lean's packed `String`
  primitives do not reduce in the kernel, so every string operation used by
  the sources is re-implemented structurally below, mirroring Python
  semantics (`str.strip`, `str.lower`, `in`, slicing, ...).  `.lower()` is
  ASCII-only in the embedding, which agrees with CPython on every literal
  appearing in the sources (Korean characters are unaffected by either).
* Network calls (`requests.Session.head/get`), the `urllib.parse.urljoin`
  function and the parsed-HTML documents handed to the code by
  BeautifulSoup are external inputs; they are modelled as explicit data /
  function parameters, and the repository logic consuming them is
  translated statement by statement.
* Python's bounded interpreter recursion is modelled by a fuel parameter:
  entering a call with fuel 0 "raises" (`Except.error`), exactly as
  CPython raises `RecursionError` on entry once the limit is reached.
-/

namespace PyStr

/-- Embedded Python string: a list of characters. -/
abbrev Str := List Char

/-- Coerce a Lean string literal to the embedded representation. -/
def ofS (s : String) : Str := s.data

/-- Python `str.lower()` (ASCII range; identity on the Korean literals used). -/
def lower (s : Str) : Str := s.map Char.toLower

/-- Python `str.lstrip()` (whitespace). -/
def lstrip (s : Str) : Str := s.dropWhile Char.isWhitespace

/-- Python `str.rstrip()` (whitespace). -/
def rstrip (s : Str) : Str := (s.reverse.dropWhile Char.isWhitespace).reverse

/-- Python `str.strip()` (whitespace). -/
def strip (s : Str) : Str := rstrip (lstrip s)

/-- Python `s.startswith(pre)`. -/
def startsWith (s pre : Str) : Bool := pre.isPrefixOf s

/-- Python `s.endswith(suf)`. -/
def endsWith (s suf : Str) : Bool := suf.isSuffixOf s

/-- Python substring containment `needle in hay`. -/
def containsSub (hay needle : Str) : Bool :=
  hay.tails.any (fun t => needle.isPrefixOf t)

/-- Python `s.strip(chars)` for an explicit character set. -/
def stripChars (cs : List Char) (s : Str) : Str :=
  ((s.dropWhile (cs.contains ·)).reverse.dropWhile (cs.contains ·)).reverse

/-- Python `s.rstrip("/")`. -/
def rstripSlash (s : Str) : Str :=
  (s.reverse.dropWhile (· == '/')).reverse

/-- Render a natural number in decimal (no padding), as Python `str(n)` does. -/
def natRepr (n : Nat) : Str := (Nat.toDigits 10 n)

/-- Render an integer in decimal, as Python `str(i)` / `f"{i}"` does. -/
def intRepr (i : Int) : Str :=
  if i < 0 then '-' :: natRepr i.natAbs else natRepr i.natAbs

end PyStr

open PyStr

namespace Healthcare

/-!  Embedding of `filters/healthcare.py`.

The two compiled regexes `inc_regex` / `exc_regex` and the rule-3 context
regex are Python `re` machinery (alternations with lookaheads); embedding
the engine itself is out of scope, so the *match results* on
`hay = " ".join([title, extra_text]).lower()` are taken as explicit inputs:
`incMatches` / `excMatches` are the ordered lists of matched strings
produced by `inc_regex.finditer(hay)` / `exc_regex.finditer(hay)` and
`digitalCtx` is the boolean outcome of the rule-3 `re.search`.  The
`finditer` engine is a deterministic pure function of `hay`, so facts
proved for all match lists cover all `(meta, extra_text)` inputs. -/

/-- PRIMARY_AGENCIES from `filters/healthcare.py`. -/
def PRIMARY_AGENCIES : List Str :=
  [ofS "보건복지부", ofS "질병관리청", ofS "식품의약품안전처",
   ofS "한국보건산업진흥원", ofS "건강보험심사평가원",
   ofS "국립중앙의료원", ofS "한국보건의료연구원"]

/-- SECONDARY_AGENCIES from `filters/healthcare.py`. -/
def SECONDARY_AGENCIES : List Str :=
  [ofS "과학기술정보통신부", ofS "산업통상자원부",
   ofS "정보통신산업진흥원", ofS "정보통신기획평가원",
   ofS "한국지능정보사회진흥원", ofS "한국연구재단",
   ofS "한국산업기술진흥원", ofS "한국산업기술기획평가원",
   ofS "한국에너지기술평가원"]

/-- The `meta` fields read by `score_notice`: `meta.get("소관부처","")`,
`meta.get("전문기관","")`, `meta.get("공고명","")` (absent keys = ""). -/
structure NoticeMeta where
  ministry : Str
  agency : Str
  title : Str
deriving DecidableEq

/-- `src_agencies = " ".join([meta.get("소관부처",""), meta.get("전문기관","")])`. -/
def srcAgencies (m : NoticeMeta) : Str := m.ministry ++ (ofS " ") ++ m.agency

/-- `is_primary = any(ag in src_agencies for ag in PRIMARY_AGENCIES)`. -/
def isPrimary (m : NoticeMeta) : Bool :=
  PRIMARY_AGENCIES.any (fun ag => containsSub (srcAgencies m) ag)

/-- `is_secondary = any(ag in src_agencies for ag in SECONDARY_AGENCIES)`. -/
def isSecondary (m : NoticeMeta) : Bool :=
  SECONDARY_AGENCIES.any (fun ag => containsSub (srcAgencies m) ag)

/-- Whole input of one `score_notice(meta, extra_text)` call, with the regex
match results made explicit (see the section comment). -/
structure ScoreIn where
  meta : NoticeMeta
  incMatches : List Str
  excMatches : List Str
  digitalCtx : Bool
deriving DecidableEq

/-- The set `{s.lower() for s in matches if s}`, represented canonically as a
duplicate-free list; its length is the set's cardinality. -/
def uniqLower (ms : List Str) : List Str :=
  ((ms.filter (fun s => !s.isEmpty)).map lower).dedup

/-- Python `repr` of a non-empty set of strings as interpolated by the
f-strings in `score_notice`; `order` is the set's hash-dependent iteration
order. -/
def pySetRepr (elems : List Str) : Str :=
  (ofS "\x7b") ++
    (List.intercalate (ofS ", ") (elems.map (fun s => '\x27' :: s ++ ['\x27']))) ++
    (ofS "\x7d")

/-- `score_notice(meta, extra_text)` from `filters/healthcare.py`, lines
45-91, with the set iteration order (hash-seed dependent, it varies between
process invocations) supplied as `setIter`; `setIter` receives the set's
elements and yields them in iteration order. -/
def scoreNotice (setIter : List Str → List Str) (inp : ScoreIn) : Int × List Str :=
  -- 1) agency points
  let s1 : Int × List Str :=
    if isPrimary inp.meta then (3, [ofS "1순위 보건/의료 기관(+3)"])
    else if isSecondary inp.meta then (1, [ofS "2순위 R&D/ICT 기관(+1)"])
    else (0, [])
  -- 2) keyword matching (`if inc:` / `if exc:` test the raw match lists)
  let incU := uniqLower inp.incMatches
  let s2 : Int × List Str :=
    if !inp.incMatches.isEmpty then
      let pts : Int := min 4 incU.length
      (s1.1 + pts,
       s1.2 ++ [ofS "헬스 키워드 " ++ pySetRepr (setIter incU) ++ ofS "(+" ++ intRepr pts ++ ofS ")"])
    else s1
  let excU := uniqLower inp.excMatches
  let s3 : Int × List Str :=
    if !inp.excMatches.isEmpty then
      let pts : Int := min 4 excU.length
      (s2.1 - pts,
       s2.2 ++ [ofS "비헬스 키워드 " ++ pySetRepr (setIter excU) ++ ofS "(-" ++ intRepr pts ++ ofS ")"])
    else s2
  -- 3) digital/R&D context bonus
  let s4 : Int × List Str :=
    if inp.digitalCtx then (s3.1 + 1, s3.2 ++ [ofS "디지털/R&D 맥락(+1)"]) else s3
  -- 4) conservative rule for secondary-tier agencies without health keywords
  if isSecondary inp.meta && inp.incMatches.isEmpty then
    (s4.1 - 1, s4.2 ++ [ofS "2순위 기관인데 헬스 키워드 없음(-1)"])
  else s4

/-- `is_interesting_for_association(meta, extra_text, threshold)`. -/
def isInteresting (setIter : List Str → List Str) (inp : ScoreIn) (threshold : Int) :
    Bool × Int × List Str :=
  let r := scoreNotice setIter inp
  (decide (r.1 ≥ threshold), r.1, r.2)

/-- Agency contribution of `score_notice` (+3 primary, else +1 secondary). -/
def agencyPts (m : NoticeMeta) : Int :=
  if isPrimary m then 3 else if isSecondary m then 1 else 0

/-- Include-keyword contribution: +1 per unique matched string, capped at +4. -/
def incContribution (inp : ScoreIn) : Int :=
  if !inp.incMatches.isEmpty then min 4 (uniqLower inp.incMatches).length else 0

/-- Exclude-keyword contribution magnitude: 1 per unique matched string, capped at 4
(it enters the score negated). -/
def excContribution (inp : ScoreIn) : Int :=
  if !inp.excMatches.isEmpty then min 4 (uniqLower inp.excMatches).length else 0

/-- Rule-3 bonus. -/
def digitalPts (inp : ScoreIn) : Int := if inp.digitalCtx then 1 else 0

/-- Rule-4 conservative penalty magnitude. -/
def penaltyPts (inp : ScoreIn) : Int :=
  if isSecondary inp.meta && inp.incMatches.isEmpty then 1 else 0

theorem scoreNotice_decomp (setIter : List Str → List Str) (inp : ScoreIn) :
    (scoreNotice setIter inp).1 =
      agencyPts inp.meta + incContribution inp - excContribution inp
        + digitalPts inp - penaltyPts inp := by
  unfold scoreNotice agencyPts incContribution excContribution digitalPts penaltyPts
  by_cases hp : isPrimary inp.meta <;>
    by_cases hs : isSecondary inp.meta <;>
      by_cases hi : inp.incMatches.isEmpty <;>
        by_cases he : inp.excMatches.isEmpty <;>
          by_cases hd : inp.digitalCtx <;>
            simp [hp, hs, hi, he, hd]

theorem incContribution_bounds (inp : ScoreIn) :
    0 ≤ incContribution inp ∧ incContribution inp ≤ 4 := by
  unfold incContribution
  split <;> constructor <;> simp

theorem excContribution_bounds (inp : ScoreIn) :
    0 ≤ excContribution inp ∧ excContribution inp ≤ 4 := by
  unfold excContribution
  split <;> constructor <;> simp

/-- Claim C3: in `score_notice`, for every input, each unique matched include
string contributes +1 with the include contribution capped at +4 (so it lies
in [0,4]), each unique matched exclude string contributes -1 with the exclude
contribution capped at -4 (so it lies in [-4,0]), and the net keyword
contribution lies in [-4,+4].  Stated as: the score decomposes into
agency + include - exclude + digital - penalty parts, where the include part
is min(4, number of unique matched include strings) when any include match
exists (0 otherwise) and dually for excludes, and the keyword parts obey the
caps.  Holds for every set iteration order. -/
theorem C3_scoreNotice_keyword_caps (setIter : List Str → List Str) (inp : ScoreIn) :
    (scoreNotice setIter inp).1 =
        agencyPts inp.meta + incContribution inp - excContribution inp
          + digitalPts inp - penaltyPts inp
      ∧ (¬inp.incMatches.isEmpty →
          incContribution inp = min 4 (uniqLower inp.incMatches).length)
      ∧ (¬inp.excMatches.isEmpty →
          excContribution inp = min 4 (uniqLower inp.excMatches).length)
      ∧ 0 ≤ incContribution inp ∧ incContribution inp ≤ 4
      ∧ -4 ≤ -excContribution inp ∧ -excContribution inp ≤ 0
      ∧ -4 ≤ incContribution inp - excContribution inp
      ∧ incContribution inp - excContribution inp ≤ 4 := by
  obtain ⟨hi0, hi4⟩ := incContribution_bounds inp
  obtain ⟨he0, he4⟩ := excContribution_bounds inp
  refine ⟨scoreNotice_decomp setIter inp, ?_, ?_, hi0, hi4, by omega, by omega, by omega, by omega⟩
  · intro h
    unfold incContribution
    simp [h]
  · intro h
    unfold excContribution
    simp [h]

/-- Claim C3 witness: the internal implications discharged on a concrete
input with one include and two exclude matches. -/
theorem C3_scoreNotice_keyword_caps_witness :
    incContribution ⟨⟨[], [], []⟩, [ofS "의료기기"], [ofS "항공", ofS "국방"], false⟩ =
        min 4 (uniqLower [ofS "의료기기"]).length
      ∧ excContribution ⟨⟨[], [], []⟩, [ofS "의료기기"], [ofS "항공", ofS "국방"], false⟩ =
        min 4 (uniqLower [ofS "항공", ofS "국방"]).length := by
  refine ⟨(C3_scoreNotice_keyword_caps id
      ⟨⟨[], [], []⟩, [ofS "의료기기"], [ofS "항공", ofS "국방"], false⟩).2.1 (by decide),
    (C3_scoreNotice_keyword_caps id
      ⟨⟨[], [], []⟩, [ofS "의료기기"], [ofS "항공", ofS "국방"], false⟩).2.2.1 (by decide)⟩

/-- Concrete scorer input with two distinct include matches, used to exhibit
the process-dependent rendering of the matched-keyword set. -/
def scoreInTwoInc : ScoreIn :=
  ⟨⟨[], [], ofS "재활 웨어러블 지원"⟩, [ofS "재활", ofS "웨어러블"], [], false⟩

/-- Claim C7 counterexample: `score_notice` is not deterministic across
process invocations character-for-character.  The reasons line
`f"헬스 키워드 {inc_uniq}(+{inc_pts})"` interpolates a Python `set`, whose
iteration order depends on the process hash seed; two hash orders that both
occur in practice (identity and reversed insertion order) yield different
reasons strings for the same `(meta, extra_text)` input. -/
theorem C7_counterexample :
    scoreNotice id scoreInTwoInc ≠ scoreNotice List.reverse scoreInTwoInc := by
  decide

/-- Claim C7 (amended): `score_notice` is pure, and its *score* is fully
deterministic — for identical inputs the score is identical regardless of the
set iteration order (hence across process invocations) — and the reasons
trail is deterministic in shape (same number of reasons, same rules fired);
only the textual rendering of the matched-keyword set inside a reason string
may vary between process invocations. -/
theorem C7_score_deterministic (o1 o2 : List Str → List Str) (inp : ScoreIn) :
    (scoreNotice o1 inp).1 = (scoreNotice o2 inp).1
      ∧ (scoreNotice o1 inp).2.length = (scoreNotice o2 inp).2.length := by
  unfold scoreNotice
  by_cases hp : isPrimary inp.meta <;>
    by_cases hs : isSecondary inp.meta <;>
      by_cases hi : inp.incMatches.isEmpty <;>
        by_cases he : inp.excMatches.isEmpty <;>
          by_cases hd : inp.digitalCtx <;>
            simp [hp, hs, hi, he, hd]

theorem uniqLower_append_fresh (l : List Str) (k : Str) (hk : ¬k.isEmpty)
    (hfresh : lower k ∉ uniqLower l) :
    (uniqLower (l ++ [k])).length = (uniqLower l).length + 1 := by
  unfold uniqLower at *
  rw [List.filter_append, List.map_append]
  have hk' : (List.filter (fun s => !s.isEmpty) [k]) = [k] := by
    simp [List.filter, hk]
  rw [hk']
  rw [← List.card_toFinset, ← List.card_toFinset]
  simp only [List.map_cons, List.map_nil, List.toFinset_append]
  have hmem : lower k ∉ ((l.filter (fun s => !s.isEmpty)).map lower).toFinset := by
    simpa [List.mem_toFinset, List.mem_dedup] using hfresh
  rw [show (([lower k] : List Str).toFinset) = {lower k} from by simp]
  rw [Finset.union_comm, ← Finset.insert_eq]
  rw [Finset.card_insert_of_not_mem hmem]

/-- Claim C8: extending the input so that exactly one additional include
keyword matches (a fresh, non-empty matched string) never decreases the
score returned by `score_notice` (the +4 cap only limits the growth); dually
extending it by one additional exclude keyword match never increases the
score.  The secondary-tier conservative penalty interaction is covered: a
first include match lifts the -1 penalty. -/
theorem C8_score_monotone (setIter : List Str → List Str) (inp : ScoreIn) (k : Str)
    (hk : ¬k.isEmpty) (hkInc : lower k ∉ uniqLower inp.incMatches)
    (hkExc : lower k ∉ uniqLower inp.excMatches) :
    (scoreNotice setIter inp).1 ≤
        (scoreNotice setIter { inp with incMatches := inp.incMatches ++ [k] }).1
      ∧ (scoreNotice setIter { inp with excMatches := inp.excMatches ++ [k] }).1 ≤
        (scoreNotice setIter inp).1 := by
  rw [scoreNotice_decomp, scoreNotice_decomp, scoreNotice_decomp]
  have hinc := uniqLower_append_fresh inp.incMatches k hk hkInc
  have hexc := uniqLower_append_fresh inp.excMatches k hk hkExc
  constructor
  · have h1 : agencyPts { inp with incMatches := inp.incMatches ++ [k] }.meta
        = agencyPts inp.meta := rfl
    have h2 : excContribution { inp with incMatches := inp.incMatches ++ [k] }
        = excContribution inp := rfl
    have h3 : digitalPts { inp with incMatches := inp.incMatches ++ [k] }
        = digitalPts inp := rfl
    rw [h1, h2, h3]
    have h4 : incContribution inp ≤ incContribution { inp with incMatches := inp.incMatches ++ [k] } := by
      unfold incContribution
      simp only []
      by_cases hi : inp.incMatches.isEmpty
      · have : (inp.incMatches ++ [k]).isEmpty = false := by
          simp [List.isEmpty_iff]
        simp only [hi, this]
        have hlen : 1 ≤ (uniqLower (inp.incMatches ++ [k])).length := by omega
        simp only [Bool.not_true, Bool.not_false, if_neg, if_pos]
        omega
      · have : (inp.incMatches ++ [k]).isEmpty = false := by
          simp [List.isEmpty_iff]
        simp only [hi, this]
        simp only [Bool.not_false]
        rw [hinc]
        simp only [if_pos]
        omega
    have h5 : penaltyPts { inp with incMatches := inp.incMatches ++ [k] } ≤ penaltyPts inp := by
      unfold penaltyPts
      by_cases hi : inp.incMatches.isEmpty <;>
        by_cases hs : isSecondary inp.meta <;>
          simp [hi, hs, List.isEmpty_iff]
    omega
  · have h1 : agencyPts { inp with excMatches := inp.excMatches ++ [k] }.meta
        = agencyPts inp.meta := rfl
    have h2 : incContribution { inp with excMatches := inp.excMatches ++ [k] }
        = incContribution inp := rfl
    have h3 : digitalPts { inp with excMatches := inp.excMatches ++ [k] }
        = digitalPts inp := rfl
    have h5 : penaltyPts { inp with excMatches := inp.excMatches ++ [k] }
        = penaltyPts inp := rfl
    rw [h1, h2, h3, h5]
    have h4 : excContribution inp ≤ excContribution { inp with excMatches := inp.excMatches ++ [k] } := by
      unfold excContribution
      by_cases he : inp.excMatches.isEmpty
      · have : (inp.excMatches ++ [k]).isEmpty = false := by
          simp [List.isEmpty_iff]
        simp only [he, this]
        have hlen : 1 ≤ (uniqLower (inp.excMatches ++ [k])).length := by omega
        simp only [Bool.not_true, Bool.not_false, if_neg, if_pos]
        omega
      · have : (inp.excMatches ++ [k]).isEmpty = false := by
          simp [List.isEmpty_iff]
        simp only [he, this]
        simp only [Bool.not_false]
        rw [hexc]
        simp only [if_pos]
        omega
    omega

/-- Claim C8 witness: monotonicity applied at a concrete input (secondary-tier
agency, no prior matches) and the fresh keyword "의료기기". -/
theorem C8_score_monotone_witness :
    (scoreNotice id ⟨⟨ofS "과학기술정보통신부", [], []⟩, [], [], false⟩).1 ≤
        (scoreNotice id ⟨⟨ofS "과학기술정보통신부", [], []⟩, [ofS "의료기기"], [], false⟩).1
      ∧ (scoreNotice id ⟨⟨ofS "과학기술정보통신부", [], []⟩, [], [ofS "의료기기"], false⟩).1 ≤
        (scoreNotice id ⟨⟨ofS "과학기술정보통신부", [], []⟩, [], [], false⟩).1 :=
  C8_score_monotone id ⟨⟨ofS "과학기술정보통신부", [], []⟩, [], [], false⟩ (ofS "의료기기")
    (by decide) (by decide) (by decide)

end Healthcare

namespace Khidi

/-!  Embedding of `crawlers/khidi_events.py`.

External collaborators are modelled as data: an HTTP response is a `Resp`
(status, final URL after transport redirects, `Content-Type` header,
`Content-Length` header, body length, and the meta-refresh URL captured by
the `_follow_meta_refresh` regex over the first 5000 characters of the body,
`none` when the regex finds nothing); the network session is a `Net` of
`head`/`get` functions that either return a `Resp` or raise
(`Except.error` with the exception's repr text), plus `urllib.parse.urljoin`
as an abstract `join` function. -/

/-- PLACEHOLDER_HREFS from `crawlers/khidi_events.py` line 49. -/
def PLACEHOLDER_HREFS : List Str :=
  [[], ofS "-", ofS "–", ofS "—", ofS "없음", ofS "미정",
   ofS "n/a", ofS "N/A", ofS "null", ofS "NULL"]

/-- `_is_placeholder_href(href)` (lines 51-55); `none` models Python `None`. -/
def isPlaceholderHref (href : Option Str) : Bool :=
  match href with
  | none => true
  | some h =>
    if h.isEmpty then true
    else
      let s := lower (strip h)
      PLACEHOLDER_HREFS.contains s || s == ofS "#"
        || startsWith s (ofS "javascript:") || startsWith s (ofS "mailto:")
        || startsWith s (ofS "tel:")

/-- Character class of a URL scheme after the first letter, as accepted by
`urllib.parse`. -/
def isSchemeChar (c : Char) : Bool :=
  c.isAlpha || c.isDigit || c == '+' || c == '-' || c == '.'

/-- Strip a leading `scheme:` from a URL if a well-formed scheme is present
(mirrors the scheme handling of `urllib.parse.urlparse`). -/
def dropScheme (u : Str) : Str :=
  let pre := u.takeWhile (fun c => c ≠ ':')
  match pre with
  | [] => u
  | c :: rest =>
    if pre.length < u.length && c.isAlpha && rest.all isSchemeChar then
      u.drop (pre.length + 1)
    else u

/-- `urlparse(u).netloc`: the authority component, present only after `//`. -/
def urlNetloc (u : Str) : Str :=
  let r := dropScheme u
  if startsWith r (ofS "//") then
    (r.drop 2).takeWhile (fun c => c ≠ '/' && c ≠ '?' && c ≠ '#')
  else []

/-- `urlparse(u).path`: what follows the authority, up to `?` or `#`. -/
def urlPath (u : Str) : Str :=
  let r := dropScheme u
  let afterNetloc :=
    if startsWith r (ofS "//") then
      (r.drop 2).dropWhile (fun c => c ≠ '/' && c ≠ '?' && c ≠ '#')
    else r
  afterNetloc.takeWhile (fun c => c ≠ '?' && c ≠ '#')

/-- `_looks_like_khidi_placeholder(url)` (lines 57-65): host contains
`khidi.or.kr` and the path, with trailing slashes removed, is the bare board
root or the board-dash dummy.  (The Python `try/except` guard is vacuous in
the embedding, where URL parsing is total.) -/
def looksLikeKhidiPlaceholder (url : Str) : Bool :=
  let host := lower (urlNetloc url)
  let path := rstripSlash (urlPath url)
  containsSub host (ofS "khidi.or.kr") && (path == ofS "/board" || path == ofS "/board/-")

/-- An HTTP response as consumed by the validator (see section comment). -/
structure Resp where
  status : Int
  url : Str
  ct : Option Str
  contentLengthH : Option Str
  bodyLen : Nat
  refreshHref : Option Str
deriving DecidableEq

/-- The network/session environment: `urljoin` plus `HEAD`/`GET`, which
either respond or raise. -/
structure Net where
  join : Str → Str → Str
  head : Str → Except Str Resp
  get : Str → Except Str Resp

/-- Python `int(s)` on a decimal string, `none` when `int` would raise. -/
def pyInt? (s : Str) : Option Int :=
  let t := strip s
  let core : Str → Option Int := fun ds =>
    if !ds.isEmpty && ds.all Char.isDigit then
      some (Int.ofNat (ds.foldl (fun a c => a * 10 + (c.toNat - 48)) 0))
    else none
  match t with
  | '-' :: ds => (core ds).map (fun n => -n)
  | '+' :: ds => core ds
  | ds => core ds

/-- Recognized content types of `_looks_like_ok_content` (lines 124-137). -/
def OK_CONTENT_TYPES : List Str :=
  [ofS "text/html", ofS "application/pdf", ofS "application/octet-stream",
   ofS "application/msword", ofS "application/vnd.openxmlformats"]

/-- `_looks_like_ok_content(resp)` (lines 124-137): recognized content type,
or `Content-Length` header above 200, or body above 200 bytes. -/
def looksLikeOkContent (r : Resp) : Bool :=
  let ct := lower (r.ct.getD [])
  if OK_CONTENT_TYPES.any (fun x => containsSub ct x) then true
  else
    let viaHeader :=
      match pyInt? (r.contentLengthH.getD (ofS "0")) with
      | some n => decide (n > 200)
      | none => false
    if viaHeader then true else decide (r.bodyLen > 200)

/-- `"text/html" in (headers.get("Content-Type") or "").lower()`. -/
def ctContainsHtml (ct : Option Str) : Bool :=
  containsSub (lower (ct.getD [])) (ofS "text/html")

/-- `_safe_abs_url(href, base)` (lines 141-144). -/
def safeAbsUrl (join : Str → Str → Str) (href : Option Str) (base : Str) : Option Str :=
  if isPlaceholderHref href then none
  else
    match href with
    | some h => some (join base (strip h))
    | none => none

/-- `_follow_meta_refresh(html, base_url)` (lines 147-154): the regex capture
is carried on the response; it is stripped of quotes and resolved via
`_safe_abs_url`. -/
def followMetaRefresh (join : Str → Str → Str) (r : Resp) (baseUrl : Str) : Option Str :=
  match r.refreshHref with
  | none => none
  | some h => safeAbsUrl join (some (stripChars ['\x27', '"'] h)) baseUrl

/-- The `meta` dictionary assembled by `_validate_link`; `none` in an
`Option` field means the key is absent (or was set to Python `None`, which
the skip log serializes identically). -/
structure VMeta where
  triedHead : Bool
  triedGet : Bool
  finalUrl : Str
  status : Option Int := none
  ct : Option Str := none
  note : Option Str := none
deriving DecidableEq

/-- Note text of a caught `RecursionError` (the `except Exception` handler of
the GET block formats it as `get_err:{e!r}`). -/
def recursionNote : Str :=
  ofS "get_err:RecursionError(\x27maximum recursion depth exceeded\x27)"

/-- `_validate_link(url, sess, referer, timeout)` (lines 156-202), together
with the number of meta-refresh hops taken (second component).  `fuel` is the
remaining interpreter recursion budget: entering the call with fuel 0 raises
`RecursionError` (`Except.error`), which the *calling* level's `except`
handler turns into a failed validation, exactly as in CPython.  The
`referer`/headers only shape the outgoing request and are absorbed into the
`Net` functions. -/
def validateLinkCore (env : Net) : Nat → Str → (Except Unit (Bool × VMeta)) × Nat
  | 0, _ => (Except.error (), 0)
  | fuel + 1, url =>
    let m0 : VMeta := { triedHead := false, triedGet := false, finalUrl := url }
    if url.isEmpty then
      (Except.ok (false, { m0 with note := some (ofS "empty-url") }), 0)
    else
      let hres := env.head url
      let m1 : VMeta :=
        match hres with
        | Except.ok hr =>
            { m0 with triedHead := true, status := some hr.status,
                      finalUrl := hr.url, ct := hr.ct }
        | Except.error e =>
            { m0 with triedHead := true, note := some (ofS "head_err:" ++ e) }
      let headOk : Bool :=
        match hres with
        | Except.ok hr => decide (200 ≤ hr.status) && decide (hr.status < 300)
        | Except.error _ => false
      if headOk then (Except.ok (true, m1), 0)
      else
        match env.get url with
        | Except.error e =>
            (Except.ok (false, { m1 with triedGet := true,
                                          note := some (ofS "get_err:" ++ e) }), 0)
        | Except.ok gr =>
          let m2 : VMeta :=
            { m1 with triedGet := true, status := some gr.status,
                      finalUrl := gr.url, ct := gr.ct }
          if decide (200 ≤ gr.status) && decide (gr.status < 400) && looksLikeOkContent gr then
            if ctContainsHtml gr.ct then
              match followMetaRefresh env.join gr gr.url with
              | some nxt =>
                if !nxt.isEmpty && nxt ≠ gr.url then
                  match validateLinkCore env fuel nxt with
                  | (Except.error _, h) =>
                      (Except.ok (false, { m2 with note := some recursionNote }), h + 1)
                  | (Except.ok (ok2, mm), h) =>
                      (Except.ok (ok2,
                        { m2 with note := some (ofS "meta-refresh→" ++ nxt),
                                  finalUrl := mm.finalUrl, status := mm.status,
                                  ct := mm.ct }), h + 1)
                else (Except.ok (true, m2), 0)
              | none => (Except.ok (true, m2), 0)
            else (Except.ok (true, m2), 0)
          else
            (Except.ok (false, { m2 with note := some (ofS "get_bad_status:" ++ intRepr gr.status) }), 0)

/-- The validation verdict of `_validate_link` (result and meta). -/
def validateLink (env : Net) (fuel : Nat) (url : Str) : Except Unit (Bool × VMeta) :=
  (validateLinkCore env fuel url).1

/-- Number of meta-refresh hops actually taken by one `_validate_link` call. -/
def hopCount (env : Net) (fuel : Nat) (url : Str) : Nat :=
  (validateLinkCore env fuel url).2

/-- Did validation return and accept?  (`Except.error` is an uncaught raise.) -/
def acceptedB (r : Except Unit (Bool × VMeta)) : Bool :=
  match r with
  | Except.ok (true, _) => true
  | _ => false

/-- The HEAD stage did not yield a 2xx response (error, or out-of-range
status) — the condition under which `_validate_link` proceeds to GET. -/
def headNon2xx (env : Net) (url : Str) : Prop :=
  match env.head url with
  | Except.ok hr => ¬(200 ≤ hr.status ∧ hr.status < 300)
  | Except.error _ => True

/-- The meta-refresh hop the GET branch would follow for response `gr`:
present iff the content type is HTML and the captured refresh URL resolves
to a non-empty URL different from the fetched page. -/
def refreshHop (env : Net) (gr : Resp) : Option Str :=
  if ctContainsHtml gr.ct then
    match followMetaRefresh env.join gr gr.url with
    | some nxt => if !nxt.isEmpty && nxt ≠ gr.url then some nxt else none
    | none => none
  else none

theorem validate_ok_note (env : Net) :
    ∀ fuel url, 1 ≤ fuel →
      ∃ b m, validateLink env fuel url = Except.ok (b, m)
        ∧ (b = false → m.note.isSome = true) := by
  intro fuel url hfuel
  match fuel, hfuel with
  | f + 1, _ =>
    unfold validateLink validateLinkCore
    by_cases hu : url.isEmpty
    · simp only [hu, if_true]
      exact ⟨false, _, rfl, fun _ => rfl⟩
    · simp only [hu, if_false, Bool.false_eq_true]
      cases hh : env.head url with
      | ok hr =>
        simp only
        by_cases hok : (decide (200 ≤ hr.status) && decide (hr.status < 300)) = true
        · simp only [hok, if_true]
          exact ⟨true, _, rfl, fun hcon => by simp at hcon⟩
        · simp only [hok, if_false, Bool.false_eq_true]
          cases hg : env.get url with
          | error e => exact ⟨false, _, rfl, fun _ => rfl⟩
          | ok gr =>
            simp only
            by_cases hst : (decide (200 ≤ gr.status) && decide (gr.status < 400)
                && looksLikeOkContent gr) = true
            · simp only [hst, if_true]
              by_cases hct : ctContainsHtml gr.ct
              · simp only [hct, if_true]
                cases hf : followMetaRefresh env.join gr gr.url with
                | none => exact ⟨true, _, rfl, fun hcon => by simp at hcon⟩
                | some nxt =>
                  simp only
                  by_cases hn : (!nxt.isEmpty && nxt ≠ gr.url) = true
                  · simp only [hn, if_true]
                    rcases hfr : validateLinkCore env f nxt with ⟨res, hp⟩
                    cases res with
                    | error u => exact ⟨false, _, rfl, fun _ => rfl⟩
                    | ok bm => exact ⟨bm.1, _, rfl, fun _ => rfl⟩
                  · simp only [hn, if_false, Bool.false_eq_true]
                    exact ⟨true, _, rfl, fun hcon => by simp at hcon⟩
              · simp only [hct, if_false, Bool.false_eq_true]
                exact ⟨true, _, rfl, fun hcon => by simp at hcon⟩
            · simp only [hst, if_false, Bool.false_eq_true]
              exact ⟨false, _, rfl, fun _ => rfl⟩
      | error e =>
        simp only
        cases hg : env.get url with
        | error e2 => exact ⟨false, _, rfl, fun _ => rfl⟩
        | ok gr =>
          simp only
          by_cases hst : (decide (200 ≤ gr.status) && decide (gr.status < 400)
              && looksLikeOkContent gr) = true
          · simp only [hst, if_true]
            by_cases hct : ctContainsHtml gr.ct
            · simp only [hct, if_true]
              cases hf : followMetaRefresh env.join gr gr.url with
              | none => exact ⟨true, _, rfl, fun hcon => by simp at hcon⟩
              | some nxt =>
                simp only
                by_cases hn : (!nxt.isEmpty && nxt ≠ gr.url) = true
                · simp only [hn, if_true]
                  rcases hfr : validateLinkCore env f nxt with ⟨res, hp⟩
                  cases res with
                  | error u => exact ⟨false, _, rfl, fun _ => rfl⟩
                  | ok bm => exact ⟨bm.1, _, rfl, fun _ => rfl⟩
                · simp only [hn, if_false, Bool.false_eq_true]
                  exact ⟨true, _, rfl, fun hcon => by simp at hcon⟩
            · simp only [hct, if_false, Bool.false_eq_true]
              exact ⟨true, _, rfl, fun hcon => by simp at hcon⟩
          · simp only [hst, if_false, Bool.false_eq_true]
            exact ⟨false, _, rfl, fun _ => rfl⟩

/-- URL of a page whose GET succeeds with substantive HTML that carries a
meta-refresh to a dead target. -/
def urlRefreshPage : Str := ofS "http://events.example/page"

/-- The dead target of the meta-refresh. -/
def urlDeadTarget : Str := ofS "http://events.example/gone"

/-- Response of `urlRefreshPage`: HTTP 200, HTML, large body, meta-refresh
pointing at `urlDeadTarget`. -/
def respRefreshPage : Resp :=
  { status := 200, url := urlRefreshPage, ct := some (ofS "text/html"),
    contentLengthH := none, bodyLen := 4096, refreshHref := some urlDeadTarget }

/-- Environment for the C4 counterexample: HEAD always raises, GET serves
`urlRefreshPage` and raises for everything else (the refresh target is
dead). -/
def envRefreshDead : Net :=
  { join := fun _ h => h,
    head := fun _ => Except.error (ofS "ConnectTimeout()"),
    get := fun u => if u == urlRefreshPage then Except.ok respRefreshPage
                    else Except.error (ofS "ConnectionError()") }

/-- Claim C4 counterexample: the claimed acceptance condition — HEAD not
2xx, then accept iff the GET status is below 400 and the content looks
substantive — is violated when the 200/HTML body carries a meta-refresh to a
dead URL: the GET on `urlRefreshPage` returns status 200 (< 400) with
substantive content, yet `_validate_link` recurses into the refresh target,
whose validation fails, and rejects the URL. -/
theorem C4_counterexample :
    envRefreshDead.head urlRefreshPage = Except.error (ofS "ConnectTimeout()")
      ∧ envRefreshDead.get urlRefreshPage = Except.ok respRefreshPage
      ∧ respRefreshPage.status < 400
      ∧ looksLikeOkContent respRefreshPage = true
      ∧ acceptedB (validateLink envRefreshDead 3 urlRefreshPage) = false :=
  ⟨rfl, rfl, by decide, by decide, by decide⟩

theorem validate_getError_rejects (env : Net) (fuel : Nat) (url : Str) (e : Str)
    (hu : ¬url.isEmpty) (hnon : headNon2xx env url) (hg : env.get url = Except.error e) :
    acceptedB (validateLink env (fuel + 1) url) = false := by
  unfold validateLink validateLinkCore
  simp only [hu, if_false, Bool.false_eq_true]
  unfold headNon2xx at hnon
  cases hh : env.head url with
  | ok hr =>
    rw [hh] at hnon
    have hok : (decide (200 ≤ hr.status) && decide (hr.status < 300)) = false := by
      simpa [Bool.and_eq_true, decide_eq_true_eq, Bool.not_eq_true] using hnon
    simp only [hok, Bool.false_eq_true, if_false, hg]
    rfl
  | error e2 =>
    simp only [Bool.false_eq_true, if_false, hg]
    rfl

theorem validate_getBad_rejects (env : Net) (fuel : Nat) (url : Str) (gr : Resp)
    (hu : ¬url.isEmpty) (hnon : headNon2xx env url) (hg : env.get url = Except.ok gr)
    (hbad : ¬(200 ≤ gr.status ∧ gr.status < 400 ∧ looksLikeOkContent gr = true)) :
    acceptedB (validateLink env (fuel + 1) url) = false := by
  unfold validateLink validateLinkCore
  simp only [hu, if_false, Bool.false_eq_true]
  unfold headNon2xx at hnon
  have hst : (decide (200 ≤ gr.status) && decide (gr.status < 400)
      && looksLikeOkContent gr) = false := by
    rcases Bool.eq_false_or_eq_true (decide (200 ≤ gr.status) && decide (gr.status < 400)
      && looksLikeOkContent gr) with h | h
    · exact absurd (by simpa [Bool.and_eq_true, decide_eq_true_eq, and_assoc] using h) hbad
    · exact h
  cases hh : env.head url with
  | ok hr =>
    rw [hh] at hnon
    have hok : (decide (200 ≤ hr.status) && decide (hr.status < 300)) = false := by
      simpa [Bool.and_eq_true, decide_eq_true_eq, Bool.not_eq_true] using hnon
    simp only [hok, Bool.false_eq_true, if_false, hg, hst]
    rfl
  | error e2 =>
    simp only [Bool.false_eq_true, if_false, hg, hst]
    rfl

theorem validate_getGood_accepts (env : Net) (fuel : Nat) (url : Str) (gr : Resp)
    (hu : ¬url.isEmpty) (hnon : headNon2xx env url) (hg : env.get url = Except.ok gr)
    (h1 : 200 ≤ gr.status) (h2 : gr.status < 400) (hlook : looksLikeOkContent gr = true)
    (hhop : refreshHop env gr = none ∨ (∃ nxt, refreshHop env gr = some nxt
      ∧ acceptedB (validateLink env fuel nxt) = true)) :
    acceptedB (validateLink env (fuel + 1) url) = true := by
  unfold validateLink validateLinkCore
  simp only [hu, if_false, Bool.false_eq_true]
  unfold headNon2xx at hnon
  have hst : (decide (200 ≤ gr.status) && decide (gr.status < 400)
      && looksLikeOkContent gr) = true := by simp [h1, h2, hlook]
  cases hh : env.head url with
  | ok hr =>
    rw [hh] at hnon
    have hok : (decide (200 ≤ hr.status) && decide (hr.status < 300)) = false := by
      simpa [Bool.and_eq_true, decide_eq_true_eq, Bool.not_eq_true] using hnon
    simp only [hok, Bool.false_eq_true, if_false, hg, hst, if_true]
    rcases hhop with hnone | ⟨nxt, hsome, haccN⟩
    · unfold refreshHop at hnone
      by_cases hct : ctContainsHtml gr.ct
      · rw [if_pos hct] at hnone
        simp only [hct, if_true]
        cases hf : followMetaRefresh env.join gr gr.url with
        | none => rfl
        | some nxt =>
          rw [hf] at hnone
          simp only at hnone ⊢
          by_cases hn : (!nxt.isEmpty && nxt ≠ gr.url) = true
          · rw [if_pos hn] at hnone
            exact absurd hnone (by simp)
          · rw [Bool.not_eq_true] at hn
            simp only [hn, Bool.false_eq_true, if_false]
            rfl
      · rw [Bool.not_eq_true] at hct
        simp only [hct, Bool.false_eq_true, if_false]
        rfl
    · unfold refreshHop at hsome
      by_cases hct : ctContainsHtml gr.ct
      · rw [if_pos hct] at hsome
        simp only [hct, if_true]
        cases hf : followMetaRefresh env.join gr gr.url with
        | none => rw [hf] at hsome; exact absurd hsome (by simp)
        | some nxt2 =>
          rw [hf] at hsome
          simp only at hsome ⊢
          by_cases hn : (!nxt2.isEmpty && nxt2 ≠ gr.url) = true
          · rw [if_pos hn] at hsome
            have hEq : nxt2 = nxt := by simpa using hsome
            subst hEq
            simp only [hn, if_true]
            unfold validateLink at haccN
            rcases hcore : validateLinkCore env fuel nxt2 with ⟨res, hp⟩
            rw [hcore] at haccN
            simp only at haccN ⊢
            cases res with
            | error u => simp [acceptedB] at haccN
            | ok bm =>
              rcases bm with ⟨b, m⟩
              cases b with
              | true => rfl
              | false => simp [acceptedB] at haccN
          · rw [if_neg hn] at hsome
            exact absurd hsome (by simp)
      · rw [if_neg hct] at hsome
        exact absurd hsome (by simp)
  | error e =>
    simp only [Bool.false_eq_true, if_false, hg, hst, if_true]
    rcases hhop with hnone | ⟨nxt, hsome, haccN⟩
    · unfold refreshHop at hnone
      by_cases hct : ctContainsHtml gr.ct
      · rw [if_pos hct] at hnone
        simp only [hct, if_true]
        cases hf : followMetaRefresh env.join gr gr.url with
        | none => rfl
        | some nxt =>
          rw [hf] at hnone
          simp only at hnone ⊢
          by_cases hn : (!nxt.isEmpty && nxt ≠ gr.url) = true
          · rw [if_pos hn] at hnone
            exact absurd hnone (by simp)
          · rw [Bool.not_eq_true] at hn
            simp only [hn, Bool.false_eq_true, if_false]
            rfl
      · rw [Bool.not_eq_true] at hct
        simp only [hct, Bool.false_eq_true, if_false]
        rfl
    · unfold refreshHop at hsome
      by_cases hct : ctContainsHtml gr.ct
      · rw [if_pos hct] at hsome
        simp only [hct, if_true]
        cases hf : followMetaRefresh env.join gr gr.url with
        | none => rw [hf] at hsome; exact absurd hsome (by simp)
        | some nxt2 =>
          rw [hf] at hsome
          simp only at hsome ⊢
          by_cases hn : (!nxt2.isEmpty && nxt2 ≠ gr.url) = true
          · rw [if_pos hn] at hsome
            have hEq : nxt2 = nxt := by simpa using hsome
            subst hEq
            simp only [hn, if_true]
            unfold validateLink at haccN
            rcases hcore : validateLinkCore env fuel nxt2 with ⟨res, hp⟩
            rw [hcore] at haccN
            simp only at haccN ⊢
            cases res with
            | error u => simp [acceptedB] at haccN
            | ok bm =>
              rcases bm with ⟨b, m⟩
              cases b with
              | true => rfl
              | false => simp [acceptedB] at haccN
          · rw [if_neg hn] at hsome
            exact absurd hsome (by simp)
      · rw [if_neg hct] at hsome
        exact absurd hsome (by simp)

theorem validate_refreshDead_rejects (env : Net) (fuel : Nat) (url : Str) (gr : Resp)
    (nxt : Str) (hu : ¬url.isEmpty) (hnon : headNon2xx env url)
    (hg : env.get url = Except.ok gr) (hhop : refreshHop env gr = some nxt)
    (hinner : acceptedB (validateLink env fuel nxt) = false) :
    acceptedB (validateLink env (fuel + 1) url) = false := by
  unfold validateLink validateLinkCore
  simp only [hu, if_false, Bool.false_eq_true]
  unfold headNon2xx at hnon
  cases hh : env.head url with
  | ok hr =>
    rw [hh] at hnon
    have hok : (decide (200 ≤ hr.status) && decide (hr.status < 300)) = false := by
      simpa [Bool.and_eq_true, decide_eq_true_eq, Bool.not_eq_true] using hnon
    simp only [hok, Bool.false_eq_true, if_false, hg]
    by_cases hst : (decide (200 ≤ gr.status) && decide (gr.status < 400)
        && looksLikeOkContent gr) = true
    · simp only [hst, if_true]
      unfold refreshHop at hhop
      by_cases hct : ctContainsHtml gr.ct
      · rw [if_pos hct] at hhop
        simp only [hct, if_true]
        cases hf : followMetaRefresh env.join gr gr.url with
        | none => rw [hf] at hhop; exact absurd hhop (by simp)
        | some nxt2 =>
          rw [hf] at hhop
          simp only at hhop ⊢
          by_cases hn : (!nxt2.isEmpty && nxt2 ≠ gr.url) = true
          · rw [if_pos hn] at hhop
            have hEq : nxt2 = nxt := by simpa using hhop
            subst hEq
            simp only [hn, if_true]
            unfold validateLink at hinner
            rcases hcore : validateLinkCore env fuel nxt2 with ⟨res, hp⟩
            rw [hcore] at hinner
            simp only at hinner ⊢
            cases res with
            | error u => rfl
            | ok bm =>
              rcases bm with ⟨b, m⟩
              cases b with
              | true => simp [acceptedB] at hinner
              | false => rfl
          · rw [if_neg hn] at hhop
            exact absurd hhop (by simp)
      · rw [if_neg hct] at hhop
        exact absurd hhop (by simp)
    · rw [Bool.not_eq_true] at hst
      simp only [hst, Bool.false_eq_true, if_false]
      rfl
  | error e =>
    simp only [Bool.false_eq_true, if_false, hg]
    by_cases hst : (decide (200 ≤ gr.status) && decide (gr.status < 400)
        && looksLikeOkContent gr) = true
    · simp only [hst, if_true]
      unfold refreshHop at hhop
      by_cases hct : ctContainsHtml gr.ct
      · rw [if_pos hct] at hhop
        simp only [hct, if_true]
        cases hf : followMetaRefresh env.join gr gr.url with
        | none => rw [hf] at hhop; exact absurd hhop (by simp)
        | some nxt2 =>
          rw [hf] at hhop
          simp only at hhop ⊢
          by_cases hn : (!nxt2.isEmpty && nxt2 ≠ gr.url) = true
          · rw [if_pos hn] at hhop
            have hEq : nxt2 = nxt := by simpa using hhop
            subst hEq
            simp only [hn, if_true]
            unfold validateLink at hinner
            rcases hcore : validateLinkCore env fuel nxt2 with ⟨res, hp⟩
            rw [hcore] at hinner
            simp only at hinner ⊢
            cases res with
            | error u => rfl
            | ok bm =>
              rcases bm with ⟨b, m⟩
              cases b with
              | true => simp [acceptedB] at hinner
              | false => rfl
          · rw [if_neg hn] at hhop
            exact absurd hhop (by simp)
      · rw [if_neg hct] at hhop
        exact absurd hhop (by simp)
    · rw [Bool.not_eq_true] at hst
      simp only [hst, Bool.false_eq_true, if_false]
      rfl

/-- Claim C4 (amended): for every non-empty candidate URL, `_validate_link`
accepts immediately when the HEAD check returns a 2xx status; on any other
HEAD outcome it issues a GET and accepts iff the GET succeeds with a status
in [200, 400) AND substantive-looking content (recognized content type or
more than 200 bytes) AND, when the content is HTML whose first 5000 bytes
carry a meta-refresh to a different non-empty URL, that target itself
validates recursively.  The four conjuncts settle the biconditional: (1)
HEAD-2xx sufficiency; (2) acceptance requires a good, substantive GET; (3)
a good GET whose refresh hop is absent or itself accepted suffices; (4)
acceptance requires the refresh hop, when present, to be accepted. -/
theorem C4_amended_validate_protocol (env : Net) (fuel : Nat) (url : Str)
    (hu : ¬url.isEmpty) :
    (∀ hr, env.head url = Except.ok hr → 200 ≤ hr.status → hr.status < 300 →
        acceptedB (validateLink env (fuel + 1) url) = true)
      ∧ (acceptedB (validateLink env (fuel + 1) url) = true → headNon2xx env url →
          ∃ gr, env.get url = Except.ok gr ∧ 200 ≤ gr.status ∧ gr.status < 400
            ∧ looksLikeOkContent gr = true)
      ∧ (∀ gr, headNon2xx env url → env.get url = Except.ok gr →
          200 ≤ gr.status → gr.status < 400 → looksLikeOkContent gr = true →
          (refreshHop env gr = none ∨
            (∃ nxt, refreshHop env gr = some nxt
              ∧ acceptedB (validateLink env fuel nxt) = true)) →
          acceptedB (validateLink env (fuel + 1) url) = true)
      ∧ (∀ gr nxt, headNon2xx env url → env.get url = Except.ok gr →
          refreshHop env gr = some nxt →
          acceptedB (validateLink env (fuel + 1) url) = true →
          acceptedB (validateLink env fuel nxt) = true) := by
  refine ⟨?_, ?_, ?_, ?_⟩
  · intro hr hh h1 h2
    unfold validateLink validateLinkCore
    simp only [hu, if_false, Bool.false_eq_true, hh]
    have hok : (decide (200 ≤ hr.status) && decide (hr.status < 300)) = true := by
      simp [h1, h2]
    simp [hok, acceptedB]
  · intro hacc hnon
    cases hg : env.get url with
    | error e =>
      exact absurd hacc (by simp [validate_getError_rejects env fuel url e hu hnon hg])
    | ok gr =>
      by_cases hgood : 200 ≤ gr.status ∧ gr.status < 400 ∧ looksLikeOkContent gr = true
      · exact ⟨gr, rfl, hgood.1, hgood.2.1, hgood.2.2⟩
      · exact absurd hacc (by simp [validate_getBad_rejects env fuel url gr hu hnon hg hgood])
  · intro gr hnon hg h1 h2 hlook hhop
    exact validate_getGood_accepts env fuel url gr hu hnon hg h1 h2 hlook hhop
  · intro gr nxt hnon hg hhop hacc
    by_contra hcon
    rw [Bool.not_eq_true] at hcon
    have hrej := validate_refreshDead_rejects env fuel url gr nxt hu hnon hg hhop hcon
    rw [hrej] at hacc
    exact Bool.false_ne_true hacc

/-- Witness for the amended C4: the HEAD-2xx branch applied to a concrete
environment that answers HEAD with status 200. -/
def respHeadOk : Resp :=
  { status := 200, url := ofS "http://fine.example/doc", ct := some (ofS "application/pdf"),
    contentLengthH := none, bodyLen := 90000, refreshHref := none }

/-- Environment whose HEAD succeeds with 2xx. -/
def envHeadOk : Net :=
  { join := fun _ h => h,
    head := fun _ => Except.ok respHeadOk,
    get := fun _ => Except.ok respHeadOk }

theorem C4_amended_validate_protocol_witness :
    acceptedB (validateLink envHeadOk 2 (ofS "http://fine.example/doc")) = true :=
  (C4_amended_validate_protocol envHeadOk 1 (ofS "http://fine.example/doc")
      (by decide)).1 respHeadOk rfl (by decide) (by decide)

/-- URL used for the C5 counterexample. -/
def urlBothFail : Str := ofS "http://dead.example/x"

/-- Environment in which both HEAD and GET raise network errors. -/
def envBothFail : Net :=
  { join := fun _ h => h,
    head := fun _ => Except.error (ofS "boom"),
    get := fun _ => Except.error (ofS "boom") }

/-- Claim C5 counterexample: the metadata does NOT always carry status code,
final URL, content type AND a short failure note.  When both HEAD and GET
fail at the network level, no status code or content type was ever received,
so those keys are absent from the returned metadata; and on a HEAD-2xx
success the metadata carries no failure note.  (The never-raises and
definite-outcome parts of the claim do hold; see the amended theorem.) -/
theorem C5_counterexample :
    validateLink envBothFail 1 urlBothFail =
        Except.ok (false,
          { triedHead := true, triedGet := true, finalUrl := urlBothFail,
            status := none, ct := none, note := some (ofS "get_err:boom") })
      ∧ validateLink envHeadOk 1 (ofS "http://fine.example/doc") =
        Except.ok (true,
          { triedHead := true, triedGet := false, finalUrl := respHeadOk.url,
            status := some 200, ct := some (ofS "application/pdf"), note := none }) :=
  ⟨rfl, rfl⟩

/-- Claim C5 (amended): `_validate_link` never raises for any input URL or
network-level failure as long as the interpreter recursion budget is not
already exhausted on entry: every network error at any stage (HEAD, GET, or a
recursive hop) is caught and recorded, and the function always returns a
definite (valid/invalid, metadata) outcome; the metadata always records the
attempted stages and a final URL, and carries a short failure note whenever
the outcome is invalid.  (Status code and content type are present only when
some response was actually received.) -/
theorem C5_amended_never_raises (env : Net) (fuel : Nat) (url : Str) (hf : 1 ≤ fuel) :
    ∃ b m, validateLink env fuel url = Except.ok (b, m)
      ∧ (b = false → m.note.isSome = true) :=
  validate_ok_note env fuel url hf

/-- Claim C5 witness: the amended theorem applied at the both-fail
environment with fuel 1. -/
theorem C5_amended_never_raises_witness :
    ∃ b m, validateLink envBothFail 1 urlBothFail = Except.ok (b, m)
      ∧ (b = false → m.note.isSome = true) :=
  C5_amended_never_raises envBothFail 1 urlBothFail (by decide)

/-- First page of the meta-refresh two-cycle. -/
def urlCycA : Str := ofS "http://cycle.example/a"

/-- Second page of the meta-refresh two-cycle. -/
def urlCycB : Str := ofS "http://cycle.example/b"

/-- Response of `urlCycA`: 200, HTML, substantive, refreshing to `urlCycB`. -/
def respCycA : Resp :=
  { status := 200, url := urlCycA, ct := some (ofS "text/html"),
    contentLengthH := none, bodyLen := 5000, refreshHref := some urlCycB }

/-- Response of `urlCycB`: 200, HTML, substantive, refreshing to `urlCycA`. -/
def respCycB : Resp :=
  { status := 200, url := urlCycB, ct := some (ofS "text/html"),
    contentLengthH := none, bodyLen := 5000, refreshHref := some urlCycA }

/-- Environment whose two HTML pages form a meta-refresh cycle pointing at
one another (HEAD always raises, forcing the GET path). -/
def envCycle : Net :=
  { join := fun _ h => h,
    head := fun _ => Except.error (ofS "ReadTimeout()"),
    get := fun u => if u == urlCycA then Except.ok respCycA
                    else if u == urlCycB then Except.ok respCycB
                    else Except.error (ofS "ConnectionError()") }

theorem validate_cycle_stepA (k : Nat) :
    validateLinkCore envCycle (k + 1) urlCycA =
      (match validateLinkCore envCycle k urlCycB with
       | (Except.error _, h) =>
           (Except.ok (false,
             { triedHead := true, triedGet := true, finalUrl := urlCycA,
               status := some 200, ct := some (ofS "text/html"),
               note := some recursionNote }), h + 1)
       | (Except.ok (ok2, mm), h) =>
           (Except.ok (ok2,
             { triedHead := true, triedGet := true, finalUrl := mm.finalUrl,
               status := mm.status, ct := mm.ct,
               note := some (ofS "meta-refresh→" ++ urlCycB) }), h + 1)) := rfl

theorem validate_cycle_stepB (k : Nat) :
    validateLinkCore envCycle (k + 1) urlCycB =
      (match validateLinkCore envCycle k urlCycA with
       | (Except.error _, h) =>
           (Except.ok (false,
             { triedHead := true, triedGet := true, finalUrl := urlCycB,
               status := some 200, ct := some (ofS "text/html"),
               note := some recursionNote }), h + 1)
       | (Except.ok (ok2, mm), h) =>
           (Except.ok (ok2,
             { triedHead := true, triedGet := true, finalUrl := mm.finalUrl,
               status := mm.status, ct := mm.ct,
               note := some (ofS "meta-refresh→" ++ urlCycA) }), h + 1)) := rfl

/-- Claim C6 counterexample: the meta-refresh recursion inside
`_validate_link` is NOT bounded to a single extra hop.  On the two-page
cycle it takes as many hops as the recursion budget allows: with budget 5 it
takes 5 hops, with budget 9 it takes 9 — the guard `nxt != str(gr.url)` only
stops self-refreshes, not cycles, so the hop count grows without a fixed
bound. -/
theorem C6_counterexample :
    2 ≤ hopCount envCycle 5 urlCycA
      ∧ hopCount envCycle 5 urlCycA = 5
      ∧ hopCount envCycle 9 urlCycA = 9 := by
  decide

/-- Claim C6 (amended): the meta-refresh recursion is bounded only by the
interpreter's recursion budget, not by a single extra hop.  It nevertheless
terminates on the cyclic pair for every budget with a definite invalid
outcome: once the budget runs out, the `RecursionError` raised on entry to
the innermost call is caught by its caller's `except` handler and surfaces
as an ordinary validation failure, never accepting either page. -/
theorem C6_amended_cycle_terminates_invalid : ∀ fuel : Nat,
    acceptedB (validateLink envCycle fuel urlCycA) = false
      ∧ acceptedB (validateLink envCycle fuel urlCycB) = false
      ∧ (fuel = 0 ∨ ((validateLink envCycle fuel urlCycA).isOk = true
          ∧ (validateLink envCycle fuel urlCycB).isOk = true)) := by
  intro fuel
  induction fuel with
  | zero => exact ⟨rfl, rfl, Or.inl rfl⟩
  | succ k ih =>
    obtain ⟨ihA, ihB, _⟩ := ih
    have hA : acceptedB (validateLink envCycle (k + 1) urlCycA) = false
        ∧ (validateLink envCycle (k + 1) urlCycA).isOk = true := by
      unfold validateLink
      rw [validate_cycle_stepA]
      rcases h : validateLinkCore envCycle k urlCycB with ⟨res, hp⟩
      unfold validateLink at ihB
      rw [h] at ihB
      cases res with
      | error u => exact ⟨rfl, rfl⟩
      | ok bm =>
        rcases bm with ⟨b, m⟩
        cases b with
        | true => simp [acceptedB] at ihB
        | false => exact ⟨rfl, rfl⟩
    have hB : acceptedB (validateLink envCycle (k + 1) urlCycB) = false
        ∧ (validateLink envCycle (k + 1) urlCycB).isOk = true := by
      unfold validateLink
      rw [validate_cycle_stepB]
      rcases h : validateLinkCore envCycle k urlCycA with ⟨res, hp⟩
      unfold validateLink at ihA
      rw [h] at ihA
      cases res with
      | error u => exact ⟨rfl, rfl⟩
      | ok bm =>
        rcases bm with ⟨b, m⟩
        cases b with
        | true => simp [acceptedB] at ihA
        | false => exact ⟨rfl, rfl⟩
    exact ⟨hA.1, hB.1, Or.inr ⟨hA.2, hB.2⟩⟩

/-!  Row processing of `fetch_khidi_events` (lines 295-444).

One listing row that reached link resolution (its table row had the detail
anchor) is a `RowIn`; the fetched+parsed detail page is a `DetailDoc` as
seen through the BeautifulSoup queries of `_pick_best_go_link` and the
fallback re-scan (`fetchDetail = none` models the detail fetch/raise
failing).  The processing of one row — candidate selection, validation,
fallback search, skip-or-append decision — is translated from the source in
`pickBestGoLink` / `resolveRow` / `processRow`; a skipped row's
`_log_skip` payload is the returned `SkipEntry`. -/

/-- An anchor element: its text and its raw `href` attribute. -/
structure Anchor where
  text : Str
  href : Str
deriving DecidableEq

/-- A label/value row of a detail-page table (only rows possessing a value
cell): header text, value text, raw href of the first anchor in the value
cell, if any. -/
structure MetaRow where
  th : Str
  tdText : Str
  tdAnchorHref : Option Str
deriving DecidableEq

/-- Parsed detail page: meta-table rows, anchors of the main content region
(`none` when no content container matches), attachment-area anchors, and
whether the raw HTML text is non-empty (`if not ok and dr_html:`). -/
structure DetailDoc where
  metaRows : List MetaRow
  bodyAnchors : Option (List Anchor)
  attachAnchors : List Anchor
  rawNonempty : Bool
deriving DecidableEq

/-- `_KEYWORD_SCORE` (lines 205-212). -/
def KEYWORD_SCORE : List (Str × Int) :=
  [(ofS "신청", 5), (ofS "바로가기", 4), (ofS "원문", 4),
   (ofS "공고문", 3), (ofS "자세히", 2), (ofS "안내", 1)]

/-- `_score_anchor(a)` (lines 214-226): keyword weights over the anchor text
plus +2 when the raw href's host is non-empty and not a KHIDI host. -/
def scoreAnchor (a : Anchor) : Int :=
  let base := KEYWORD_SCORE.foldl (fun acc kw => if containsSub a.text kw.1 then acc + kw.2 else acc) 0
  let host := lower (urlNetloc a.href)
  if !host.isEmpty && !containsSub host (ofS "khidi.or.kr") then base + 2 else base

/-- PLACEHOLDERS (line 37), used by `_pick_institution` and the listing-row
institution extraction. -/
def PLACEHOLDERS : List Str :=
  [[], ofS "-", ofS "–", ofS "—", ofS "없음", ofS "미정",
   ofS "n/a", ofS "N/A", ofS "null", ofS "NULL"]

/-- Lookup in the meta dict built from the table rows (`meta[th] = tdText`
for rows with a non-empty header; a later row overwrites an earlier one). -/
def metaTableGet (rows : List MetaRow) (key : Str) : Option Str :=
  ((rows.filter (fun r => !r.th.isEmpty && r.th == key)).map (fun r => r.tdText)).getLast?

/-- The label synonyms probed by `_pick_institution` (line 229). -/
def INSTITUTION_KEYS : List Str :=
  [ofS "출처", ofS "기관", ofS "주최", ofS "주관", ofS "주최/주관",
   ofS "교육기관", ofS "발행기관"]

/-- `_pick_institution(meta)` (lines 228-233). -/
def pickInstitution (rows : List MetaRow) : Option Str :=
  (INSTITUTION_KEYS.filterMap (fun key =>
    let val := strip ((metaTableGet rows key).getD [])
    if !val.isEmpty && !PLACEHOLDERS.contains val then some val else none)).head?

/-- The meta-table label vocabulary of `_pick_best_go_link` step 1
(line 261). -/
def GO_LINK_KEYS : List Str :=
  [ofS "원문링크", ofS "원문URL", ofS "신청바로가기", ofS "교육신청",
   ofS "행사바로가기", ofS "참가신청", ofS "접수"]

/-- Document extensions of `_pick_best_go_link` step 3 (the case-insensitive
regex matching pdf/hwp/doc/docx/ppt/pptx at end of URL, line 288). -/
def DOC_EXT : List Str :=
  [ofS ".pdf", ofS ".hwp", ofS ".docx", ofS ".doc", ofS ".pptx", ofS ".ppt"]

/-- Does the (lowered) URL end in a known document extension? -/
def hasDocExt (u : Str) : Bool := DOC_EXT.any (fun e => endsWith (lower u) e)

/-- The non-table meta keys tracked by the row pipeline (`go_link_type`,
`note`, `fallback_from`, `validation`). -/
structure RowMeta where
  goLinkType : Str
  note : Option Str := none
  fallbackFrom : Option Str := none
  validation : Option VMeta := none
deriving DecidableEq

/-- Python tuple comparison key for `(score, href, text)` candidates
(ints compare numerically, strings lexicographically by code point). -/
def candKey (c : Int × Str × Str) : Lex (Int × Lex (List Nat × List Nat)) :=
  toLex (c.1, toLex (c.2.1.map Char.toNat, c.2.2.map Char.toNat))

/-- `cands.sort(reverse=True)` on `(score, href, text)` triples.  The key is
injective up to triple equality, so the descending sorted order is the same
list Python's stable sort produces. -/
def sortCandsDesc (l : List (Int × Str × Str)) : List (Int × Str × Str) :=
  List.insertionSort (fun a b => candKey b ≤ candKey a) l

/-- Step-1 candidates of `_pick_best_go_link` (lines 255-265): meta-table
rows whose label matches the original/apply vocabulary and whose value cell
holds an anchor that resolves to a non-empty safe URL; paired with the label. -/
def goMetaHit (join : Str → Str → Str) (doc : DetailDoc) (detailUrl : Str) :
    List (Str × Str) :=
  doc.metaRows.filterMap (fun r =>
    if !r.th.isEmpty && GO_LINK_KEYS.any (fun k => containsSub r.th k) then
      match r.tdAnchorHref with
      | some h =>
        (safeAbsUrl join (some h) detailUrl).bind (fun u =>
          if u.isEmpty then none else some (u, r.th))
      | none => none
    else none)

/-- Step-2 candidates of `_pick_best_go_link` (lines 268-281): positive-scoring
body anchors with their resolved URL and text. -/
def goBodyCands (join : Str → Str → Str) (doc : DetailDoc) (detailUrl : Str) :
    List (Int × Str × Str) :=
  match doc.bodyAnchors with
  | some anchors => anchors.filterMap (fun a =>
      match safeAbsUrl join (some a.href) detailUrl with
      | some u =>
        if u.isEmpty then none
        else
          let sc := scoreAnchor a
          if 0 < sc then some (sc, u, a.text) else none
      | none => none)
  | none => []

/-- Step-3 candidates of `_pick_best_go_link` (lines 284-289): attachment-area
anchors resolving to a URL with a document extension. -/
def goAttHit (join : Str → Str → Str) (doc : DetailDoc) (detailUrl : Str) : List Str :=
  doc.attachAnchors.filterMap (fun a =>
    match safeAbsUrl join (some a.href) detailUrl with
    | some u => if u.isEmpty then none else if hasDocExt u then some u else none
    | none => none)

/-- `_pick_best_go_link(detail_html, detail_url)` (lines 237-292). -/
def pickBestGoLink (join : Str → Str → Str) (doc : DetailDoc) (detailUrl : Str) :
    Str × RowMeta :=
  match (goMetaHit join doc detailUrl).head? with
  | some hit => (hit.1, { goLinkType := ofS "meta:" ++ hit.2 })
  | none =>
    match (sortCandsDesc (goBodyCands join doc detailUrl)).head? with
    | some best => (best.2.1, { goLinkType := ofS "body:" ++ best.2.2.take 30 })
    | none =>
      match (goAttHit join doc detailUrl).head? with
      | some u => (u, { goLinkType := ofS "attachment" })
      | none => (detailUrl, { goLinkType := ofS "detail" })

/-- One listing row that reached link resolution. -/
structure RowIn where
  title : Str
  regDate : Str
  detailHref : Str
  listInst : Option Str
  fetchDetail : Option DetailDoc
deriving DecidableEq

/-- The `_log_skip` payload of a dropped row (lines 396-406). -/
structure SkipEntry where
  title : Str
  date : Str
  listInst : Option Str
  detailUrl : Str
  pickedLink : Str
  finalGoLink : Str
  goLinkType : Str
  note : Option Str
  validation : Option VMeta
deriving DecidableEq

/-- A notice appended to the output feed (lines 421-433; the fields the
claims are about). -/
structure EventNotice where
  title : Str
  link : Str
  date : Str
  institution : Str
  goLinkType : Str
deriving DecidableEq

/-- Outcome of processing one row. -/
inductive RowOut where
  | appended (n : EventNotice)
  | skipped (e : SkipEntry)
deriving DecidableEq

/-- The fallback loop `for _, u, txt in cands[:5]` (lines 360-365): validate
in order, stop at the first success, propagating an uncaught raise. -/
def firstValidated (env : Net) (fuel : Nat) :
    List (Int × Str × Str) → Except Unit (Option (Str × Str × VMeta))
  | [] => Except.ok none
  | c :: rest =>
    match validateLink env fuel c.2.1 with
    | Except.error e => Except.error e
    | Except.ok (true, vm) => Except.ok (some (c.2.1, c.2.2, vm))
    | Except.ok (false, _) => firstValidated env fuel rest

/-- `dr_html` truthiness for the fallback re-scan (`if not ok and dr_html:`). -/
def drNonempty (row : RowIn) : Bool :=
  match row.fetchDetail with
  | some doc => doc.rawNonempty
  | none => false

/-- Fallback body candidates (lines 344-351): positive-scoring body anchors
whose resolved URL differs from the failed candidate. -/
def bodyCandsOf (join : Str → Str → Str) (detailHref cand : Str) (doc : DetailDoc) :
    List (Int × Str × Str) :=
  match doc.bodyAnchors with
  | some anchors => anchors.filterMap (fun a =>
      match safeAbsUrl join (some a.href) detailHref with
      | some u =>
        if u.isEmpty || u == cand then none
        else
          let sc := scoreAnchor a
          if 0 < sc then some (sc, u, a.text) else none
      | none => none)
  | none => []

/-- Fallback attachment candidates (lines 353-357), each with flat score 3. -/
def attCandsOf (join : Str → Str → Str) (detailHref cand : Str) (doc : DetailDoc) :
    List (Int × Str × Str) :=
  doc.attachAnchors.filterMap (fun a =>
    match safeAbsUrl join (some a.href) detailHref with
    | some u => if u.isEmpty || u == cand then none else some ((3 : Int), u, a.text)
    | none => none)

/-- The ranked fallback candidate list (line 359). -/
def fallbackCands (join : Str → Str → Str) (detailHref cand : Str) (doc : DetailDoc) :
    List (Int × Str × Str) :=
  sortCandsDesc (bodyCandsOf join detailHref cand doc ++ attCandsOf join detailHref cand doc)

/-- The meta updates applied when a fallback candidate validates (line 364). -/
def fallbackMeta (m0 : RowMeta) (alt : Str × Str × VMeta) (cand : Str) : RowMeta :=
  { m0 with
      goLinkType := ofS "fallback:" ++ alt.2.1.take 30,
      fallbackFrom := some cand,
      validation := some alt.2.2 }

/-- The meta updates applied when the row falls back to the detail page
(lines 368-373). -/
def detailFallbackMeta (m : RowMeta) (cand : Str) (vm : VMeta) : RowMeta :=
  { m with
      goLinkType := ofS "detail_fallback",
      fallbackFrom := some cand,
      validation := some vm,
      note := some (ofS "alt_placeholder") }

/-- Validation, fallback search and go-link decision for one row, given the
already-picked candidate and meta (lines 335-385): returns
`(cand_link, go_link, meta)`. -/
def resolveAfterPick (env : Net) (fuel : Nat) (row : RowIn) (candLink : Str)
    (meta0 : RowMeta) : Except Unit (Str × Str × RowMeta) :=
  match validateLink env fuel candLink with
  | Except.error e => Except.error e
  | Except.ok (ok, vm) =>
    if !ok && drNonempty row then
      match row.fetchDetail with
      | none => Except.error ()  -- unreachable: drNonempty forces a fetched document
      | some doc =>
        match firstValidated env fuel ((fallbackCands env.join row.detailHref candLink doc).take 5) with
        | Except.error e => Except.error e
        | Except.ok none =>
          Except.ok (candLink, row.detailHref, detailFallbackMeta meta0 candLink vm)
        | Except.ok (some alt) =>
          if looksLikeKhidiPlaceholder alt.1 then
            Except.ok (candLink, row.detailHref,
              detailFallbackMeta (fallbackMeta meta0 alt candLink) candLink vm)
          else Except.ok (candLink, alt.1, fallbackMeta meta0 alt candLink)
    else
      if ok && !looksLikeKhidiPlaceholder candLink then
        Except.ok (candLink, candLink, { meta0 with validation := some vm })
      else
        Except.ok (candLink, row.detailHref,
          { meta0 with
              note := some (meta0.note.getD (ofS "placeholder-or-bad-candidate")),
              validation := some vm })

/-- Candidate selection, validation and fallback for one row (lines 326-385). -/
def resolveRow (env : Net) (fuel : Nat) (row : RowIn) : Except Unit (Str × Str × RowMeta) :=
  let picked :=
    match row.fetchDetail with
    | some doc => pickBestGoLink env.join doc row.detailHref
    | none => (row.detailHref, { goLinkType := ofS "detail_error" })
  resolveAfterPick env fuel row picked.1 picked.2

/-- Shorthand for the property of `urljoin` that the C1 invariant rests on:
joining a non-placeholder href onto a base never yields a placeholder token
(true of `urllib.parse.urljoin`, whose output either keeps the href's own
scheme — already screened — or inherits the absolute base). -/
def JoinOk (env : Net) : Prop :=
  ∀ base h, isPlaceholderHref (some h) = false →
    isPlaceholderHref (some (env.join base (strip h))) = false

theorem safeAbs_not_placeholder (env : Net) (hjoin : JoinOk env)
    (h : Option Str) (base u : Str) (heq : safeAbsUrl env.join h base = some u) :
    isPlaceholderHref (some u) = false := by
  unfold safeAbsUrl at heq
  by_cases hp : isPlaceholderHref h
  · rw [if_pos hp] at heq
    exact absurd heq (by simp)
  · rw [if_neg hp] at heq
    cases h with
    | none => simp [isPlaceholderHref] at hp
    | some hh =>
      simp only [Option.some.injEq] at heq
      subst heq
      exact hjoin base hh (by simpa [Bool.not_eq_true] using hp)

theorem firstValidated_found (env : Net) (fuel : Nat) :
    ∀ l res, firstValidated env fuel l = Except.ok (some res) →
      (∃ c ∈ l, c.2.1 = res.1)
        ∧ validateLink env fuel res.1 = Except.ok (true, res.2.2) := by
  intro l
  induction l with
  | nil =>
    intro res h
    exact absurd h (by simp [firstValidated])
  | cons c rest ih =>
    intro res h
    unfold firstValidated at h
    rcases hv : validateLink env fuel c.2.1 with e | bm
    · rw [hv] at h
      exact absurd h (by simp)
    · rw [hv] at h
      rcases bm with ⟨b, vm⟩
      cases b with
      | true =>
        simp only [Except.ok.injEq, Option.some.injEq] at h
        subst h
        exact ⟨⟨c, List.mem_cons_self c rest, rfl⟩, hv⟩
      | false =>
        obtain ⟨⟨c', hc', he⟩, hval⟩ := ih res h
        exact ⟨⟨c', List.mem_cons_of_mem c hc', he⟩, hval⟩

theorem mem_bodyCands_not_placeholder (env : Net) (hjoin : JoinOk env)
    (detailHref cand : Str) (doc : DetailDoc) (c : Int × Str × Str)
    (hc : c ∈ bodyCandsOf env.join detailHref cand doc) :
    isPlaceholderHref (some c.2.1) = false := by
  unfold bodyCandsOf at hc
  cases hb : doc.bodyAnchors with
  | none => rw [hb] at hc; simp at hc
  | some anchors =>
    rw [hb] at hc
    obtain ⟨a, _, hfa⟩ := List.mem_filterMap.mp hc
    rcases hs : safeAbsUrl env.join (some a.href) detailHref with _ | u
    · rw [hs] at hfa; simp at hfa
    · rw [hs] at hfa
      simp only at hfa
      by_cases h1 : (u.isEmpty || u == cand) = true
      · rw [if_pos h1] at hfa; simp at hfa
      · rw [if_neg h1] at hfa
        by_cases h2 : (0 : Int) < scoreAnchor a
        · rw [if_pos h2] at hfa
          have : u = c.2.1 := by
            have := Option.some.inj hfa
            subst this
            rfl
          subst this
          exact safeAbs_not_placeholder env hjoin _ _ _ hs
        · rw [if_neg h2] at hfa; simp at hfa

theorem mem_attCands_not_placeholder (env : Net) (hjoin : JoinOk env)
    (detailHref cand : Str) (doc : DetailDoc) (c : Int × Str × Str)
    (hc : c ∈ attCandsOf env.join detailHref cand doc) :
    isPlaceholderHref (some c.2.1) = false := by
  unfold attCandsOf at hc
  obtain ⟨a, _, hfa⟩ := List.mem_filterMap.mp hc
  rcases hs : safeAbsUrl env.join (some a.href) detailHref with _ | u
  · rw [hs] at hfa; simp at hfa
  · rw [hs] at hfa
    simp only at hfa
    by_cases h1 : (u.isEmpty || u == cand) = true
    · rw [if_pos h1] at hfa; simp at hfa
    · rw [if_neg h1] at hfa
      have : u = c.2.1 := by
        have := Option.some.inj hfa
        subst this
        rfl
      subst this
      exact safeAbs_not_placeholder env hjoin _ _ _ hs

theorem mem_fallbackCands_not_placeholder (env : Net) (hjoin : JoinOk env)
    (detailHref cand : Str) (doc : DetailDoc) (c : Int × Str × Str)
    (hc : c ∈ fallbackCands env.join detailHref cand doc) :
    isPlaceholderHref (some c.2.1) = false := by
  unfold fallbackCands sortCandsDesc at hc
  rw [(List.perm_insertionSort _ _).mem_iff, List.mem_append] at hc
  rcases hc with hc | hc
  · exact mem_bodyCands_not_placeholder env hjoin detailHref cand doc c hc
  · exact mem_attCands_not_placeholder env hjoin detailHref cand doc c hc

theorem mem_goMetaHit_not_placeholder (env : Net) (hjoin : JoinOk env)
    (doc : DetailDoc) (detailUrl : Str) (hit : Str × Str)
    (hm : hit ∈ goMetaHit env.join doc detailUrl) :
    isPlaceholderHref (some hit.1) = false := by
  unfold goMetaHit at hm
  obtain ⟨r, _, hfr⟩ := List.mem_filterMap.mp hm
  by_cases hcond : (!r.th.isEmpty && GO_LINK_KEYS.any (fun k => containsSub r.th k)) = true
  · rw [if_pos hcond] at hfr
    cases ha : r.tdAnchorHref with
    | none => rw [ha] at hfr; simp at hfr
    | some hh =>
      rw [ha] at hfr
      simp only at hfr
      rcases hs : safeAbsUrl env.join (some hh) detailUrl with _ | u
      · rw [hs] at hfr; simp at hfr
      · rw [hs] at hfr
        simp only [Option.some_bind] at hfr
        by_cases he : u.isEmpty
        · rw [if_pos he] at hfr; simp at hfr
        · rw [if_neg he] at hfr
          have : u = hit.1 := by
            have := Option.some.inj hfr
            subst this
            rfl
          subst this
          exact safeAbs_not_placeholder env hjoin _ _ _ hs
  · rw [if_neg hcond] at hfr
    simp at hfr

theorem mem_goBodyCands_not_placeholder (env : Net) (hjoin : JoinOk env)
    (doc : DetailDoc) (detailUrl : Str) (c : Int × Str × Str)
    (hc : c ∈ goBodyCands env.join doc detailUrl) :
    isPlaceholderHref (some c.2.1) = false := by
  unfold goBodyCands at hc
  cases hb : doc.bodyAnchors with
  | none => rw [hb] at hc; simp at hc
  | some anchors =>
    rw [hb] at hc
    obtain ⟨a, _, hfa⟩ := List.mem_filterMap.mp hc
    rcases hs : safeAbsUrl env.join (some a.href) detailUrl with _ | u
    · rw [hs] at hfa; simp at hfa
    · rw [hs] at hfa
      simp only at hfa
      by_cases he : u.isEmpty
      · rw [if_pos he] at hfa; simp at hfa
      · rw [if_neg he] at hfa
        by_cases h2 : (0 : Int) < scoreAnchor a
        · rw [if_pos h2] at hfa
          have : u = c.2.1 := by
            have := Option.some.inj hfa
            subst this
            rfl
          subst this
          exact safeAbs_not_placeholder env hjoin _ _ _ hs
        · rw [if_neg h2] at hfa; simp at hfa

theorem mem_goAttHit_not_placeholder (env : Net) (hjoin : JoinOk env)
    (doc : DetailDoc) (detailUrl : Str) (u : Str)
    (hu : u ∈ goAttHit env.join doc detailUrl) :
    isPlaceholderHref (some u) = false := by
  unfold goAttHit at hu
  obtain ⟨a, _, hfa⟩ := List.mem_filterMap.mp hu
  rcases hs : safeAbsUrl env.join (some a.href) detailUrl with _ | v
  · rw [hs] at hfa; simp at hfa
  · rw [hs] at hfa
    simp only at hfa
    by_cases he : v.isEmpty
    · rw [if_pos he] at hfa; simp at hfa
    · rw [if_neg he] at hfa
      by_cases hx : hasDocExt v
      · rw [if_pos hx] at hfa
        have : v = u := Option.some.inj hfa
        subst this
        exact safeAbs_not_placeholder env hjoin _ _ _ hs
      · rw [if_neg hx] at hfa; simp at hfa

theorem pickBest_link (env : Net) (hjoin : JoinOk env) (doc : DetailDoc)
    (detailUrl : Str) (u : Str) (m : RowMeta)
    (h : pickBestGoLink env.join doc detailUrl = (u, m)) :
    u = detailUrl ∨ isPlaceholderHref (some u) = false := by
  unfold pickBestGoLink at h
  rcases h1 : (goMetaHit env.join doc detailUrl).head? with _ | hit
  · rw [h1] at h
    simp only at h
    rcases h2 : (sortCandsDesc (goBodyCands env.join doc detailUrl)).head? with _ | best
    · rw [h2] at h
      simp only at h
      rcases h3 : (goAttHit env.join doc detailUrl).head? with _ | v
      · rw [h3] at h
        simp only [Prod.mk.injEq] at h
        exact Or.inl h.1.symm
      · rw [h3] at h
        simp only [Prod.mk.injEq] at h
        obtain ⟨hu, _⟩ := h
        subst hu
        exact Or.inr (mem_goAttHit_not_placeholder env hjoin doc detailUrl _
          (List.mem_of_mem_head? (h3 ▸ rfl)))
    · rw [h2] at h
      simp only [Prod.mk.injEq] at h
      obtain ⟨hu, _⟩ := h
      subst hu
      have hmem : best ∈ sortCandsDesc (goBodyCands env.join doc detailUrl) :=
        List.mem_of_mem_head? (h2 ▸ rfl)
      rw [sortCandsDesc, (List.perm_insertionSort _ _).mem_iff] at hmem
      exact Or.inr (mem_goBodyCands_not_placeholder env hjoin doc detailUrl _ hmem)
  · rw [h1] at h
    simp only [Prod.mk.injEq] at h
    obtain ⟨hu, _⟩ := h
    subst hu
    exact Or.inr (mem_goMetaHit_not_placeholder env hjoin doc detailUrl _
      (List.mem_of_mem_head? (h1 ▸ rfl)))

theorem resolveAfterPick_goLink (env : Net) (fuel : Nat) (row : RowIn) (cand : Str)
    (m0 : RowMeta) (hjoin : JoinOk env) (c go : Str) (m : RowMeta)
    (h : resolveAfterPick env fuel row cand m0 = Except.ok (c, go, m)) :
    c = cand
      ∧ (go = row.detailHref
          ∨ (go = cand ∧ ∃ vm, validateLink env fuel cand = Except.ok (true, vm))
          ∨ ((∃ vm, validateLink env fuel go = Except.ok (true, vm))
              ∧ isPlaceholderHref (some go) = false)) := by
  unfold resolveAfterPick at h
  rcases hv : validateLink env fuel cand with e | bm
  · rw [hv] at h
    exact absurd h (by simp)
  · rw [hv] at h
    rcases bm with ⟨ok, vm⟩
    simp only at h
    by_cases hb : (!ok && drNonempty row) = true
    · rw [if_pos hb] at h
      cases hfd : row.fetchDetail with
      | none =>
        rw [hfd] at h
        exact absurd h (by simp)
      | some doc =>
        rw [hfd] at h
        simp only at h
        rcases hfv : firstValidated env fuel
            ((fallbackCands env.join row.detailHref cand doc).take 5) with e | found
        · rw [hfv] at h
          exact absurd h (by simp)
        · rw [hfv] at h
          cases found with
          | none =>
            simp only [Except.ok.injEq, Prod.mk.injEq] at h
            exact ⟨h.1.symm, Or.inl h.2.1.symm⟩
          | some alt =>
            simp only at h
            by_cases hk : looksLikeKhidiPlaceholder alt.1 = true
            · rw [if_pos hk] at h
              simp only [Except.ok.injEq, Prod.mk.injEq] at h
              exact ⟨h.1.symm, Or.inl h.2.1.symm⟩
            · rw [if_neg hk] at h
              simp only [Except.ok.injEq, Prod.mk.injEq] at h
              obtain ⟨hc, hgo, _⟩ := h
              subst hgo
              obtain ⟨⟨cc, hcc, hce⟩, hval⟩ := firstValidated_found env fuel _ alt hfv
              refine ⟨hc.symm, Or.inr (Or.inr ⟨⟨alt.2.2, hval⟩, ?_⟩)⟩
              have hmem : cc ∈ fallbackCands env.join row.detailHref cand doc :=
                List.take_subset 5 _ hcc
              have := mem_fallbackCands_not_placeholder env hjoin row.detailHref cand doc cc hmem
              rw [hce] at this
              exact this
    · rw [if_neg hb] at h
      by_cases hk2 : (ok && !looksLikeKhidiPlaceholder cand) = true
      · rw [if_pos hk2] at h
        simp only [Except.ok.injEq, Prod.mk.injEq] at h
        obtain ⟨hc, hgo, _⟩ := h
        have hok : ok = true := by
          have h2 := hk2
          simp only [Bool.and_eq_true] at h2
          exact h2.1
        subst hok
        exact ⟨hc.symm, Or.inr (Or.inl ⟨hgo.symm, vm, rfl⟩)⟩
      · rw [if_neg hk2] at h
        simp only [Except.ok.injEq, Prod.mk.injEq] at h
        exact ⟨h.1.symm, Or.inl h.2.1.symm⟩

theorem resolveRow_goLink (env : Net) (fuel : Nat) (row : RowIn) (hjoin : JoinOk env)
    (c go : Str) (m : RowMeta) (h : resolveRow env fuel row = Except.ok (c, go, m)) :
    go = row.detailHref
      ∨ ((∃ vm, validateLink env fuel go = Except.ok (true, vm))
          ∧ isPlaceholderHref (some go) = false) := by
  unfold resolveRow at h
  cases hfd : row.fetchDetail with
  | none =>
    rw [hfd] at h
    simp only at h
    obtain ⟨hc, hgo⟩ := resolveAfterPick_goLink env fuel row row.detailHref _ hjoin c go m h
    rcases hgo with h1 | ⟨h1, _⟩ | h1
    · exact Or.inl h1
    · exact Or.inl h1
    · exact Or.inr h1
  | some doc =>
    rw [hfd] at h
    simp only at h
    rcases hp : pickBestGoLink env.join doc row.detailHref with ⟨pu, pm⟩
    rw [hp] at h
    obtain ⟨hc, hgo⟩ := resolveAfterPick_goLink env fuel row pu pm hjoin c go m h
    rcases hgo with h1 | ⟨h1, vm, hex⟩ | h1
    · exact Or.inl h1
    · rcases pickBest_link env hjoin doc row.detailHref pu pm hp with hd | hnp
      · exact Or.inl (h1.trans hd)
      · subst h1
        exact Or.inr ⟨⟨vm, hex⟩, hnp⟩
    · exact Or.inr h1


/-- The table rows visible to `_pick_institution` for this row. -/
def metaRowsOf (row : RowIn) : List MetaRow :=
  match row.fetchDetail with
  | some doc => doc.metaRows
  | none => []

/-- Skip-or-append decision for one row (lines 387-433). -/
def processRow (env : Net) (fuel : Nat) (row : RowIn) : Except Unit RowOut :=
  match resolveRow env fuel row with
  | Except.error e => Except.error e
  | Except.ok r =>
    let candLink := r.1
    let goLink := r.2.1
    let meta := r.2.2
    let metaInst := (pickInstitution (metaRowsOf row)).getD (ofS "-")
    let noOriginal :=
      goLink == row.detailHref || looksLikeKhidiPlaceholder goLink
        || startsWith meta.goLinkType (ofS "detail")
    if noOriginal then
      Except.ok (RowOut.skipped
        { title := row.title,
          date := row.regDate,
          listInst := row.listInst,
          detailUrl := row.detailHref,
          pickedLink := candLink,
          finalGoLink := goLink,
          goLinkType := meta.goLinkType,
          note := meta.note,
          validation := meta.validation })
    else
      let institution :=
        match row.listInst with
        | some li =>
          if !li.isEmpty && li ≠ ofS "기타" then li
          else if metaInst == ofS "-" then ofS "기타" else metaInst
        | none => if metaInst == ofS "-" then ofS "기타" else metaInst
      Except.ok (RowOut.appended
        { title := row.title,
          link := goLink,
          date := row.regDate,
          institution := institution,
          goLinkType := meta.goLinkType })

/-- Claim C1: for every listing row processed by `fetch_khidi_events`
(under the `urljoin` property `JoinOk`), a notice is appended to the output
only if its final link is a successfully validated candidate that is neither
the detail-page URL itself, nor a KHIDI internal placeholder, nor a
placeholder token (empty, `-`, `#`, `javascript:`, `mailto:`, `tel:` — all
screened by `isPlaceholderHref`); and every row whose final link fails the
skip conditions is written to the skip log (the returned `SkipEntry`, which
records title, date, list institution, detail URL, picked candidate, final
link, and the validation diagnostics) and excluded from the output
entirely. -/
theorem C1_appended_link_validated (env : Net) (fuel : Nat) (row : RowIn)
    (hjoin : JoinOk env) :
    (∀ n, processRow env fuel row = Except.ok (RowOut.appended n) →
        (∃ vm, validateLink env fuel n.link = Except.ok (true, vm))
          ∧ n.link ≠ row.detailHref
          ∧ looksLikeKhidiPlaceholder n.link = false
          ∧ isPlaceholderHref (some n.link) = false)
      ∧ (∀ e, processRow env fuel row = Except.ok (RowOut.skipped e) →
          e.title = row.title ∧ e.date = row.regDate ∧ e.detailUrl = row.detailHref
            ∧ (e.finalGoLink = row.detailHref
                ∨ looksLikeKhidiPlaceholder e.finalGoLink = true
                ∨ startsWith e.goLinkType (ofS "detail") = true)) := by
  constructor
  · intro n h
    unfold processRow at h
    rcases hr : resolveRow env fuel row with e | r
    · rw [hr] at h
      exact absurd h (by simp)
    · rw [hr] at h
      rcases r with ⟨cand, go, meta⟩
      simp only at h
      by_cases hno : (go == row.detailHref || looksLikeKhidiPlaceholder go
          || startsWith meta.goLinkType (ofS "detail")) = true
      · rw [if_pos hno] at h
        exact absurd h (by simp)
      · rw [if_neg hno] at h
        simp only [Bool.or_eq_true, beq_iff_eq, not_or, Bool.not_eq_true] at hno
        obtain ⟨⟨hne, hkhidi⟩, hsw⟩ := hno
        simp only [Except.ok.injEq, RowOut.appended.injEq] at h
        subst h
        rcases resolveRow_goLink env fuel row hjoin cand go meta hr with hd | ⟨hval, hnp⟩
        · exact absurd hd hne
        · exact ⟨hval, hne, hkhidi, hnp⟩
  · intro e h
    unfold processRow at h
    rcases hr : resolveRow env fuel row with er | r
    · rw [hr] at h
      exact absurd h (by simp)
    · rw [hr] at h
      rcases r with ⟨cand, go, meta⟩
      simp only at h
      by_cases hno : (go == row.detailHref || looksLikeKhidiPlaceholder go
          || startsWith meta.goLinkType (ofS "detail")) = true
      · rw [if_pos hno] at h
        simp only [Except.ok.injEq, RowOut.skipped.injEq] at h
        subst h
        simp only [Bool.or_eq_true, beq_iff_eq] at hno
        exact ⟨rfl, rfl, rfl, by tauto⟩
      · rw [if_neg hno] at h
        exact absurd h (by simp)

/-- Concrete listing row for the C1 witness: a detail page whose body holds
one high-scoring external apply link. -/
def rowW1 : RowIn :=
  { title := ofS "테스트 행사",
    regDate := ofS "2025-03-10",
    detailHref := ofS "https://www.khidi.or.kr/board/view?id=1",
    listInst := some (ofS "한국보건산업진흥원"),
    fetchDetail := some
      { metaRows := [],
        bodyAnchors := some [{ text := ofS "신청 바로가기", href := ofS "https://apply.example/r" }],
        attachAnchors := [],
        rawNonempty := true } }

/-- Join function for the C1 witness (constant absolute URL, trivially
placeholder-free). -/
def joinW1 : Str → Str → Str := fun _ _ => ofS "https://apply.example/r"

/-- Response served for every request of the C1 witness environment. -/
def respW1 : Resp :=
  { status := 200, url := ofS "https://apply.example/r", ct := some (ofS "text/html"),
    contentLengthH := none, bodyLen := 1000, refreshHref := none }

/-- Environment for the C1 witness: everything resolves with HTTP 200. -/
def envW1 : Net :=
  { join := joinW1, head := fun _ => Except.ok respW1, get := fun _ => Except.ok respW1 }

/-- The notice the C1 witness row produces. -/
def noticeW1 : EventNotice :=
  { title := ofS "테스트 행사", link := ofS "https://apply.example/r",
    date := ofS "2025-03-10", institution := ofS "한국보건산업진흥원",
    goLinkType := ofS "body:신청 바로가기" }

/-- Claim C1 witness: the appended-row implication discharged on the
concrete row `rowW1`. -/
theorem C1_appended_link_validated_witness :
    (∃ vm, validateLink envW1 2 noticeW1.link = Except.ok (true, vm))
      ∧ noticeW1.link ≠ rowW1.detailHref
      ∧ looksLikeKhidiPlaceholder noticeW1.link = false
      ∧ isPlaceholderHref (some noticeW1.link) = false :=
  (C1_appended_link_validated envW1 2 rowW1 (fun _ _ _ => rfl)).1 noticeW1 (by rfl)

end Khidi

namespace WebApp

/-!  Embedding of the refresh endpoints of `notice_webapp/app.py`
(lines 301-341).

The three POST handlers share the module dict `_FLAGS` with one boolean per
endpoint kind; each handler checks its own flag, and if clear sets it and
spawns a background job whose `finally` clears the flag again.  The system
is modelled as a transition relation on a state carrying the three flags and
the multiset of in-flight refresh jobs; one handler execution and one job
completion are each a single atomic transition (the interleaving model most
favourable to the claim — even under it, the claimed global mutual exclusion
fails because the flags are per-endpoint). -/

/-- The three refresh endpoint kinds. -/
inductive RKind where
  | all
  | notices
  | events
deriving DecidableEq

/-- `_FLAGS` plus the in-flight refresh jobs. -/
structure WebState where
  flagAll : Bool
  flagNotices : Bool
  flagEvents : Bool
  running : List RKind
deriving DecidableEq

/-- Read a kind's `_FLAGS` entry. -/
def flagOf (s : WebState) : RKind → Bool
  | RKind.all => s.flagAll
  | RKind.notices => s.flagNotices
  | RKind.events => s.flagEvents

/-- Write a kind's `_FLAGS` entry. -/
def setFlag (s : WebState) : RKind → Bool → WebState
  | RKind.all, b => { s with flagAll := b }
  | RKind.notices, b => { s with flagNotices := b }
  | RKind.events, b => { s with flagEvents := b }

/-- One execution of a refresh handler (`refresh_all` / `refresh_notices` /
`refresh_events`): a no-op returning immediately when the kind's flag is
set, otherwise set the flag and start a job. -/
def refreshReq (k : RKind) (s : WebState) : WebState :=
  if flagOf s k then s
  else { setFlag s k true with running := k :: s.running }

/-- Completion of an in-flight job: the `finally` block clears the flag. -/
def jobFinish (k : RKind) (s : WebState) : WebState :=
  { setFlag s k false with running := s.running.erase k }

/-- The transitions of the refresh subsystem. -/
inductive Step : WebState → WebState → Prop where
  | req (k : RKind) (s : WebState) : Step s (refreshReq k s)
  | finish (k : RKind) (s : WebState) (h : k ∈ s.running) : Step s (jobFinish k s)

/-- Server start: all flags clear, nothing in flight. -/
def initState : WebState := ⟨false, false, false, []⟩

/-- States the refresh subsystem can reach. -/
inductive Reachable : WebState → Prop where
  | init : Reachable initState
  | step {s t : WebState} : Reachable s → Step s t → Reachable t

theorem flagOf_setFlag (s : WebState) (k : RKind) (b : Bool) (k' : RKind) :
    flagOf (setFlag s k b) k' = if k' = k then b else flagOf s k' := by
  cases k <;> cases k' <;> simp [setFlag, flagOf]

theorem flagOf_update_running (s : WebState) (r : List RKind) (k : RKind) :
    flagOf { s with running := r } k = flagOf s k := by
  cases k <;> rfl

theorem running_setFlag (s : WebState) (k : RKind) (b : Bool) :
    (setFlag s k b).running = s.running := by
  cases k <;> rfl

theorem count_step (s t : WebState) (hst : Step s t)
    (ih : ∀ k, s.running.count k = (if flagOf s k then 1 else 0)) :
    ∀ k, t.running.count k = (if flagOf t k then 1 else 0) := by
  cases hst with
  | req k0 =>
    intro k
    unfold refreshReq
    by_cases hf : flagOf s k0
    · rw [if_pos hf]
      exact ih k
    · rw [if_neg hf]
      have hrun : ({ setFlag s k0 true with running := k0 :: s.running } : WebState).running
          = k0 :: s.running := rfl
      have hflag : flagOf { setFlag s k0 true with running := k0 :: s.running } k
          = flagOf (setFlag s k0 true) k := flagOf_update_running _ _ k
      rw [hrun, hflag, flagOf_setFlag]
      by_cases hk : k = k0
      · subst hk
        rw [if_pos rfl, List.count_cons_self, ih k, if_neg hf]
        rfl
      · rw [if_neg hk, List.count_cons_of_ne hk, ih k]
  | finish k0 _ hmem =>
    intro k
    unfold jobFinish
    have hrun : ({ setFlag s k0 false with running := s.running.erase k0 } : WebState).running
        = s.running.erase k0 := rfl
    have hflag : flagOf { setFlag s k0 false with running := s.running.erase k0 } k
        = flagOf (setFlag s k0 false) k := flagOf_update_running _ _ k
    rw [hrun, hflag, flagOf_setFlag]
    by_cases hk : k = k0
    · subst hk
      rw [if_pos rfl, List.count_erase_self, ih k]
      have hpos : 0 < s.running.count k := List.count_pos_iff.mpr hmem
      have hf : flagOf s k = true := by
        by_contra hcon
        rw [Bool.not_eq_true] at hcon
        rw [ih k, if_neg (by simp [hcon])] at hpos
        omega
      rw [hf]
      simp
    · rw [if_neg hk, List.count_erase_of_ne hk, ih k]

theorem reachable_count (s : WebState) (h : Reachable s) :
    ∀ k, s.running.count k = (if flagOf s k then 1 else 0) := by
  induction h with
  | init => intro k; cases k <;> rfl
  | @step s0 t0 hs hstep ih => exact count_step s0 t0 hstep ih

/-- Second refresh request while one of the same kind is in flight is a
no-op. -/
theorem refreshReq_noop (s : WebState) (k : RKind) (hf : flagOf s k = true) :
    refreshReq k s = s := by
  unfold refreshReq
  rw [hf]
  rfl

/-- Claim C9 counterexample: the webapp does NOT enforce at-most-one
in-flight refresh globally.  `_FLAGS` holds one flag per endpoint kind, so a
POST to the all-refresh endpoint followed by a POST to the notices-refresh
endpoint reaches a state with two refresh runs in flight simultaneously
(both of which execute `run_collection` concurrently). -/
theorem C9_counterexample :
    Reachable ⟨true, true, false, [RKind.notices, RKind.all]⟩
      ∧ 2 ≤ ([RKind.notices, RKind.all] : List RKind).length := by
  constructor
  · have h1 : Reachable (refreshReq RKind.all initState) :=
      Reachable.step Reachable.init (Step.req RKind.all initState)
    have h2 : Reachable (refreshReq RKind.notices (refreshReq RKind.all initState)) :=
      Reachable.step h1 (Step.req RKind.notices (refreshReq RKind.all initState))
    exact h2
  · decide

/-- Claim C9 (amended): the guard flags enforce at-most-one in-flight
refresh *per endpoint kind* (`all`, `notices`, `events`): in every
reachable state each kind has at most one job in flight, and a second
request of a kind whose flag is set is a no-op that returns immediately
without starting a duplicate run.  Requests of different kinds may run
concurrently (see the counterexample). -/
theorem C9_amended_per_kind_guard (s : WebState) (h : Reachable s) :
    (∀ k, s.running.count k ≤ 1)
      ∧ (∀ k, flagOf s k = true → refreshReq k s = s) := by
  refine ⟨fun k => ?_, fun k hf => refreshReq_noop s k hf⟩
  rw [reachable_count s h k]
  split <;> omega

/-- Claim C9 witness: the amended guarantee at the two-jobs state reached in
the counterexample trace. -/
theorem C9_amended_per_kind_guard_witness :
    (⟨true, true, false, [RKind.notices, RKind.all]⟩ : WebState).running.count RKind.all ≤ 1
      ∧ refreshReq RKind.all ⟨true, true, false, [RKind.notices, RKind.all]⟩
        = ⟨true, true, false, [RKind.notices, RKind.all]⟩ := by
  have hreach : Reachable ⟨true, true, false, [RKind.notices, RKind.all]⟩ :=
    Reachable.step
      (Reachable.step Reachable.init (Step.req RKind.all initState))
      (Step.req RKind.notices (refreshReq RKind.all initState))
  exact ⟨(C9_amended_per_kind_guard _ hreach).1 RKind.all,
    (C9_amended_per_kind_guard _ hreach).2 RKind.all rfl⟩

end WebApp

namespace PyDate

/-!  A model of the fragment of `datetime` used by `main.py` and
`crawlers/khidi_events.py`: naive datetimes, `strptime` for the fixed
formats appearing in the sources (implemented as full-match scanners
equivalent to CPython's `TimeRE` regexes for complete matches), calendar
validation as done by the `datetime` constructor, and naive
`datetime.timestamp()` for a fixed local UTC offset. -/

/-- A naive datetime at minute precision (the sources never parse seconds). -/
structure Dtm where
  year : Nat
  month : Nat
  day : Nat
  hour : Nat
  minute : Nat
deriving DecidableEq

/-- `datetime.min`. -/
def dtMin : Dtm := ⟨1, 1, 1, 0, 0⟩

/-- Gregorian leap year. -/
def isLeap (y : Nat) : Bool := (y % 4 == 0 && y % 100 != 0) || y % 400 == 0

/-- Days in a month, as validated by the `datetime` constructor. -/
def daysInMonth (y m : Nat) : Nat :=
  if m == 2 then (if isLeap y then 29 else 28)
  else if m == 4 || m == 6 || m == 9 || m == 11 then 30
  else 31

/-- Decimal value of a digit string. -/
def digitsVal (ds : Str) : Nat := ds.foldl (fun a c => a * 10 + (c.toNat - 48)) 0

/-- `%Y`: exactly four digits. -/
def read4 (s : Str) : Option (Nat × Str) :=
  match s with
  | a :: b :: c :: d :: rest =>
    if a.isDigit && b.isDigit && c.isDigit && d.isDigit then
      some (digitsVal [a, b, c, d], rest)
    else none
  | _ => none

/-- `%m`/`%d`/`%H`/`%M`: one or two digits, greedy.  (The `TimeRE`
alternations constrain the numeric range; combined with the full-match
requirement, taking the maximal one-or-two-digit run and range-checking the
value afterwards accepts exactly the same complete strings.) -/
def read12 (s : Str) : Option (Nat × Str) :=
  match s with
  | a :: b :: rest =>
    if a.isDigit && b.isDigit then some (digitsVal [a, b], rest)
    else if a.isDigit then some (digitsVal [a], b :: rest)
    else none
  | [a] => if a.isDigit then some (digitsVal [a], []) else none
  | [] => none

/-- A literal format character. -/
def lit (c : Char) (s : Str) : Option Str :=
  match s with
  | x :: rest => if x == c then some rest else none
  | [] => none

/-- A space in a `strptime` format matches one or more whitespace chars. -/
def ws1 (s : Str) : Option Str :=
  match s with
  | x :: rest => if x.isWhitespace then some (rest.dropWhile Char.isWhitespace) else none
  | [] => none

/-- The `datetime(year, month, day, ...)` constructor validation. -/
def validDate (y mo d : Nat) : Bool :=
  1 ≤ y && y ≤ 9999 && 1 ≤ mo && mo ≤ 12 && 1 ≤ d && d ≤ daysInMonth y mo

/-- `datetime.strptime(s, "%Y<sep>%m<sep>%d")`, full match. -/
def strptimeYmdSep (sep : Char) (s : Str) : Option Dtm := do
  let (y, r1) ← read4 s
  let r2 ← lit sep r1
  let (mo, r3) ← read12 r2
  let r4 ← lit sep r3
  let (d, r5) ← read12 r4
  if r5.isEmpty && validDate y mo d then some ⟨y, mo, d, 0, 0⟩ else none

/-- `datetime.strptime(s, "%Y-%m-%d %H:%M")`, full match. -/
def strptimeYmdHm (s : Str) : Option Dtm := do
  let (y, r1) ← read4 s
  let r2 ← lit '-' r1
  let (mo, r3) ← read12 r2
  let r4 ← lit '-' r3
  let (d, r5) ← read12 r4
  let r6 ← ws1 r5
  let (hh, r7) ← read12 r6
  let r8 ← lit ':' r7
  let (mi, r9) ← read12 r8
  if r9.isEmpty && validDate y mo d && hh ≤ 23 && mi ≤ 59 then
    some ⟨y, mo, d, hh, mi⟩
  else none

/-- Cumulative days before a month. -/
def daysBeforeMonth (y m : Nat) : Nat :=
  let base :=
    match m with
    | 1 => 0 | 2 => 31 | 3 => 59 | 4 => 90 | 5 => 120 | 6 => 151
    | 7 => 181 | 8 => 212 | 9 => 243 | 10 => 273 | 11 => 304 | _ => 334
  if 3 ≤ m && isLeap y then base + 1 else base

/-- `datetime.toordinal()`: proleptic Gregorian ordinal, day 1 = 0001-01-01. -/
def toordinal (y m d : Nat) : Nat :=
  365 * (y - 1) + (y - 1) / 4 - (y - 1) / 100 + (y - 1) / 400 + daysBeforeMonth y m + d

/-- Naive `datetime.timestamp()` under a fixed local UTC offset `tzoff`
(seconds east of UTC).  `datetime.min` raises `ValueError: year 0 is out of
range` (the `_mktime` probe steps below year 1); it is the only value
`_parse_date_for_sort` can produce on which the conversion raises.
719163 is `date(1970, 1, 1).toordinal()`. -/
def pyNaiveTimestamp (tzoff : Int) (dt : Dtm) : Except Unit Int :=
  if dt = dtMin then Except.error ()
  else
    Except.ok (((toordinal dt.year dt.month dt.day : Int) - 719163) * 86400
      + dt.hour * 3600 + dt.minute * 60 - tzoff)

end PyDate

namespace Collect

open PyDate

/-!  Embedding of the deduplication and sorting stage of `collect`
(`main.py` lines 31-40 and 102-119). -/

/-- The fields of a collected notice dict that dedup and sort read
(`date = none` models a missing `"date"` key, so that `x.get("date")` is
`None`). -/
structure Item where
  title : Str
  date : Option Str
  link : Str
  score : Int
deriving DecidableEq

/-- `_parse_date_for_sort(s)` (`main.py` lines 31-40). -/
def parseDateForSort (s : Option Str) : Dtm :=
  match s with
  | none => dtMin
  | some s0 =>
    if s0.isEmpty then dtMin
    else
      let t := (strip s0).take 16
      match strptimeYmdHm t with
      | some d => d
      | none =>
        match strptimeYmdSep '-' t with
        | some d => d
        | none => dtMin

/-- The sort key `(-score, -int(ts), title)` of `collect` (lines 113-119);
`Except.error` models the `ValueError` raised by `.timestamp()`. -/
def sortKey (tzoff : Int) (it : Item) : Except Unit (Lex (Int × Lex (Int × List Nat))) :=
  match pyNaiveTimestamp tzoff (parseDateForSort it.date) with
  | Except.error e => Except.error e
  | Except.ok ts => Except.ok (toLex (-it.score, toLex (-ts, it.title.map Char.toNat)))

/-- The dedup identity key `(title.strip(), date.strip(), link.strip())`
(line 105; a missing date key defaults to `""`). -/
def dedupKey (it : Item) : Str × Str × Str :=
  (strip it.title, strip (it.date.getD []), strip it.link)

/-- First-occurrence-wins dedup (lines 103-109). -/
def dedupStep : List Item → List (Str × Str × Str) → List Item
  | [], _ => []
  | it :: rest, seen =>
    if seen.contains (dedupKey it) then dedupStep rest seen
    else it :: dedupStep rest (dedupKey it :: seen)

/-- `seen, dedup = set(), []` then the loop of lines 104-109. -/
def dedup (l : List Item) : List Item := dedupStep l []

/-- The sort key with a (never reached when all keys are defined) default. -/
def keyOrDefault (tzoff : Int) (it : Item) : Lex (Int × Lex (Int × List Nat)) :=
  match sortKey tzoff it with
  | Except.ok k => k
  | Except.error _ => toLex (0, toLex (0, []))

/-- The dedup + sort stage of `collect` (lines 102-119): Python's
`list.sort` computes the key of every element and raises if any key raises;
otherwise it sorts by the keys. -/
def collectSortE (tzoff : Int) (items : List Item) : Except Unit (List Item) :=
  let dd := dedup items
  if dd.all (fun it => (sortKey tzoff it).isOk) then
    Except.ok (List.insertionSort
      (fun a b => keyOrDefault tzoff a ≤ keyOrDefault tzoff b) dd)
  else Except.error ()

/-- Item with a parseable date. -/
def itemDated : Item :=
  { title := ofS "가", date := some (ofS "2025-01-01"), link := ofS "https://x.example/1", score := 5 }

/-- Item whose `"date"` key is absent. -/
def itemNoDate : Item :=
  { title := ofS "나", date := none, link := ofS "https://x.example/2", score := 5 }

/-- Older dated item with lower score. -/
def itemOld : Item :=
  { title := ofS "다", date := some (ofS "2024-01-01"), link := ofS "https://x.example/3", score := 3 }

/-- Claim C2: the sort of `collect` raises for every input containing an
item with an absent or unparseable date.  `_parse_date_for_sort` maps such
items to `datetime.min`, and `-int(_parse_date_for_sort(...).timestamp())`
calls `.timestamp()` on `datetime.min`, which raises
`ValueError: year 0 is out of range` (observed under every tested local
timezone, including UTC and Asia/Seoul, offset 32400 below).  On inputs
whose dates all parse, the stage behaves as specified: here the two dated
items sort by descending score, ties by descending date, as the second
conjunct evaluates. -/
theorem C2_sort_crashes_on_absent_date :
    dedup [itemDated, itemNoDate] = [itemDated, itemNoDate]
      ∧ sortKey 32400 itemNoDate = Except.error ()
      ∧ collectSortE 32400 [itemDated, itemNoDate] = Except.error ()
      ∧ collectSortE 32400 [itemOld, itemDated] = Except.ok [itemDated, itemOld]
      ∧ collectSortE 32400 [itemOld, itemDated, itemOld] = Except.ok [itemDated, itemOld] :=
  ⟨rfl, rfl, rfl, rfl, rfl⟩

end Collect

namespace NormDate

open PyDate

/-!  Embedding of `_norm_date(s)` (`crawlers/khidi_events.py` lines 76-110).

The three `re.search` calls are implemented as leftmost-position scanners.
For each group `(\\d{1,2})` that is followed by a non-digit token
(whitespace-star plus a literal), regex backtracking from two digits to one
can never succeed — after giving back a digit, the next input char is a
digit, which matches neither the whitespace class nor the literal — so the
group matches exactly the maximal digit run at its position whenever that
run has length one or two, and fails otherwise; a trailing `(\\d{1,2})`
with nothing after it takes the first `min(run, 2)` digits.  Each scanner
mirrors this. -/

/-- The range separators of `re.split(r"[~–—至]", s)` (line 83). -/
def RANGE_SEPS : List Char := ['~', '–', '—', '至']

/-- The part before the first range separator (`re.split(...)[0]`). -/
def firstRangePart (s : Str) : Str := s.takeWhile (fun c => !RANGE_SEPS.contains c)

/-- Does the string contain a range separator? -/
def hasRangeSep (s : Str) : Bool := s.any (fun c => RANGE_SEPS.contains c)

/-- Maximal digit run at the head, and the remainder. -/
def digitRun (s : Str) : Str × Str := (s.takeWhile Char.isDigit, s.dropWhile Char.isDigit)

/-- `\\s*`. -/
def skipWs (s : Str) : Str := s.dropWhile Char.isWhitespace

/-- A literal character. -/
def litc (c : Char) (s : Str) : Option Str :=
  match s with
  | x :: rest => if x == c then some rest else none
  | [] => none

/-- Match `(\\d{4})\\s*년\\s*(\\d{1,2})\\s*월\\s*(\\d{1,2})\\s*일`
at this position (line 86). -/
def matchKoreanAt (s : Str) : Option (Nat × Nat × Nat) :=
  match s with
  | a :: b :: c :: d :: rest =>
    if a.isDigit && b.isDigit && c.isDigit && d.isDigit then
      match litc '년' (skipWs rest) with
      | none => none
      | some r1 =>
        let mo := digitRun (skipWs r1)
        if 1 ≤ mo.1.length && mo.1.length ≤ 2 then
          match litc '월' (skipWs mo.2) with
          | none => none
          | some r3 =>
            let dd := digitRun (skipWs r3)
            if 1 ≤ dd.1.length && dd.1.length ≤ 2 then
              match litc '일' (skipWs dd.2) with
              | none => none
              | some _ => some (digitsVal [a, b, c, d], digitsVal mo.1, digitsVal dd.1)
            else none
        else none
    else none
  | _ => none

/-- The dot-slash-dash separator class of pattern 3. -/
def isSep3 (c : Char) : Bool := c == '.' || c == '/' || c == '-'

/-- Match pattern 3 (line 92): four digits, then whitespace-star and a
dot-slash-dash separator, a one-or-two digit group, another separator, and a
final one-or-two digit group. -/
def matchSepDateAt (s : Str) : Option (Nat × Nat × Nat) :=
  match s with
  | a :: b :: c :: d :: rest =>
    if a.isDigit && b.isDigit && c.isDigit && d.isDigit then
      match skipWs rest with
      | x :: r1 =>
        if isSep3 x then
          let mo := digitRun (skipWs r1)
          if 1 ≤ mo.1.length && mo.1.length ≤ 2 then
            match skipWs mo.2 with
            | x2 :: r3 =>
              if isSep3 x2 then
                let dd := digitRun (skipWs r3)
                if 1 ≤ dd.1.length then
                  some (digitsVal [a, b, c, d], digitsVal mo.1, digitsVal (dd.1.take 2))
                else none
              else none
            | [] => none
          else none
        else none
      | [] => none
    else none
  | _ => none

/-- Match `(\\d{4}-\\d{1,2}-\\d{1,2})` at this position (line 98); the code
splits the captured group on `-` and converts the three pieces. -/
def matchIsoAt (s : Str) : Option (Nat × Nat × Nat) :=
  match s with
  | a :: b :: c :: d :: rest =>
    if a.isDigit && b.isDigit && c.isDigit && d.isDigit then
      match rest with
      | '-' :: r1 =>
        let mo := digitRun r1
        if 1 ≤ mo.1.length && mo.1.length ≤ 2 then
          match mo.2 with
          | '-' :: r3 =>
            let dd := digitRun r3
            if 1 ≤ dd.1.length then
              some (digitsVal [a, b, c, d], digitsVal mo.1, digitsVal (dd.1.take 2))
            else none
          | _ => none
        else none
      | _ => none
    else none
  | _ => none

/-- Leftmost `re.search`: try the matcher at every start position. -/
def searchPos {α : Type} (f : Str → Option α) : Str → Option α
  | [] => f []
  | c :: rest =>
    match f (c :: rest) with
    | some v => some v
    | none => searchPos f rest

/-- The decimal digit character of `n % 10`-style values. -/
def digitChar (n : Nat) : Char := Char.ofNat (48 + n)

/-- `f"{n:02d}"` for `n < 100`. -/
def pad2 (n : Nat) : Str := [digitChar (n / 10 % 10), digitChar (n % 10)]

/-- `f"{n:04d}"` for `n < 10000` (every year here comes from a four-digit
group, so the bound always holds). -/
def pad4 (n : Nat) : Str :=
  [digitChar (n / 1000 % 10), digitChar (n / 100 % 10), digitChar (n / 10 % 10),
   digitChar (n % 10)]

/-- `f"{y:04d}-{mo:02d}-{d:02d}"`, also `strftime("%Y-%m-%d")`. -/
def fmtDate (y mo d : Nat) : Str := pad4 y ++ '-' :: pad2 mo ++ '-' :: pad2 d

/-- The pipeline of `_norm_date` after the range split (lines 85-110):
patterns 2-4, then the `strptime` fallback formats on the first 16 chars. -/
def normCore (t : Str) : Str :=
  match searchPos matchKoreanAt t with
  | some v => fmtDate v.1 v.2.1 v.2.2
  | none =>
    match searchPos matchSepDateAt t with
    | some v => fmtDate v.1 v.2.1 v.2.2
    | none =>
      match searchPos matchIsoAt t with
      | some v => fmtDate v.1 v.2.1 v.2.2
      | none =>
        match strptimeYmdHm (t.take 16) with
        | some dt => fmtDate dt.year dt.month dt.day
        | none =>
          match strptimeYmdSep '-' (t.take 16) with
          | some dt => fmtDate dt.year dt.month dt.day
          | none =>
            match strptimeYmdSep '.' (t.take 16) with
            | some dt => fmtDate dt.year dt.month dt.day
            | none =>
              match strptimeYmdSep '/' (t.take 16) with
              | some dt => fmtDate dt.year dt.month dt.day
              | none => []

/-- `_norm_date(s)` (lines 76-110). -/
def normDate (s : Str) : Str :=
  let t := strip s
  if t.isEmpty then []
  else normCore (firstRangePart t)

/-- Is the string a zero-padded `YYYY-MM-DD` shape? -/
def isDateShape (l : Str) : Bool :=
  match l with
  | [a, b, c, d, e, f, g, h, i, j] =>
    a.isDigit && b.isDigit && c.isDigit && d.isDigit && e == '-'
      && f.isDigit && g.isDigit && h == '-' && i.isDigit && j.isDigit
  | _ => false

theorem digitChar_isDigit (n : Nat) (h : n < 10) : (digitChar n).isDigit = true := by
  interval_cases n <;> decide

theorem fmtDate_shape (y mo d : Nat) : isDateShape (fmtDate y mo d) = true := by
  have h1 := digitChar_isDigit (y / 1000 % 10) (Nat.mod_lt _ (by omega))
  have h2 := digitChar_isDigit (y / 100 % 10) (Nat.mod_lt _ (by omega))
  have h3 := digitChar_isDigit (y / 10 % 10) (Nat.mod_lt _ (by omega))
  have h4 := digitChar_isDigit (y % 10) (Nat.mod_lt _ (by omega))
  have h5 := digitChar_isDigit (mo / 10 % 10) (Nat.mod_lt _ (by omega))
  have h6 := digitChar_isDigit (mo % 10) (Nat.mod_lt _ (by omega))
  have h7 := digitChar_isDigit (d / 10 % 10) (Nat.mod_lt _ (by omega))
  have h8 := digitChar_isDigit (d % 10) (Nat.mod_lt _ (by omega))
  simp [fmtDate, pad4, pad2, isDateShape, h1, h2, h3, h4, h5, h6, h7, h8]

theorem normCore_shape (t : Str) : normCore t = [] ∨ isDateShape (normCore t) = true := by
  unfold normCore
  rcases h1 : searchPos matchKoreanAt t with _ | v1
  rcases h2 : searchPos matchSepDateAt t with _ | v2
  rcases h3 : searchPos matchIsoAt t with _ | v3
  rcases h4 : strptimeYmdHm (t.take 16) with _ | d4
  rcases h5 : strptimeYmdSep '-' (t.take 16) with _ | d5
  rcases h6 : strptimeYmdSep '.' (t.take 16) with _ | d6
  rcases h7 : strptimeYmdSep '/' (t.take 16) with _ | d7
  · exact Or.inl rfl
  all_goals exact Or.inr (fmtDate_shape _ _ _)

/-- Claim C10: `_norm_date` is a total function with a fixed output shape:
for every input string it returns, without raising (the embedding is total
by construction, every branch handled), either the empty string or a
zero-padded `YYYY-MM-DD` string; and for a string whose stripped form
contains a range separator (`~`, `–`, `—`, `至`) the result is the
normalization of the first endpoint (the part before the first separator). -/
theorem C10_normDate_total_shape (s : Str) :
    (normDate s = [] ∨ isDateShape (normDate s) = true)
      ∧ (hasRangeSep (strip s) = true →
          normDate s = normCore (firstRangePart (strip s))) := by
  constructor
  · unfold normDate
    by_cases he : (strip s).isEmpty
    · rw [if_pos he]
      exact Or.inl rfl
    · rw [if_neg he]
      exact normCore_shape _
  · intro hsep
    unfold normDate
    by_cases he : (strip s).isEmpty
    · rw [List.isEmpty_iff.mp he] at hsep
      exact absurd hsep (by decide)
    · rw [if_neg he]

/-- Claim C10 witness: the range clause discharged on a concrete range
string, whose first endpoint normalizes to `2025-03-10`. -/
theorem C10_normDate_total_shape_witness :
    normDate (ofS "2025.3.10 ~ 2025.3.12")
        = normCore (firstRangePart (strip (ofS "2025.3.10 ~ 2025.3.12")))
      ∧ normDate (ofS "2025.3.10 ~ 2025.3.12") = ofS "2025-03-10" :=
  ⟨(C10_normDate_total_shape (ofS "2025.3.10 ~ 2025.3.12")).2 (by decide), by decide⟩

end NormDate

